import Mathlib

/-! # Voting chaincode (`chaincode/voting/voting.go`)

A shallow embedding of the voting smart contract and of the two external
collaborators it talks to, neither of which is part of the repository:

* the ledger stub (`shim.ChaincodeStubInterface`): a keyed store with point
  read, point write and ordered range scan, every call of which may fail. The
  world state is a list of entries that `PutState` keeps in ascending key order;
  the failures of the store are a separate component of the stub, so that a
  statement can say which calls work.
* Go's `encoding/json`, restricted to the `Asset_Votes` struct: the encoder with
  its string escaping, and the decoder with its syntax check of the whole input,
  its matching of member names to struct tags (exact, else ignoring case) and
  its treatment of `null` and of values of the wrong kind.

Every operation of the contract is a function from the stub (and the arguments)
to the response and the stub after the call; an error that the source drops is
dropped here as well.

Go strings and byte slices are modelled as Unicode text (`String`, and
`List Char` inside the JSON codec), so byte sequences that are not valid UTF-8 are
outside the model; a `nil` byte slice is the empty text. Keys are compared by code
point, which is the order of their UTF-8 bytes. Output written to standard output
(`fmt.Println`, `fmt.Printf`) is not modelled.
-/

namespace Voting

/-! ## Responses (`sc.Response`, `shim.Success`, `shim.Error`) -/

/-- The response record of the peer protocol: status code, error message and payload. -/
structure Response where
  Status : Nat
  Message : String
  Payload : String
deriving DecidableEq, Repr

namespace shim

/-- Status code carried by `shim.Success`. -/
def OK : Nat := 200

/-- Status code carried by `shim.Error`. -/
def ERROR : Nat := 500

/-- The response of `shim.Success(payload)`: status `OK`, no message, the payload as given. -/
def Success (payload : String) : Response := ⟨OK, "", payload⟩

/-- The response of `shim.Error(msg)`: status `ERROR`, the message as given, no payload. -/
def Error (msg : String) : Response := ⟨ERROR, msg, ""⟩

end shim

/-! ## The ledger stub -/

/-- World state: key/value entries, kept in ascending key order by `ledgerPut`. -/
abbrev Ledger := List (String × String)

/-- Lexicographic comparison of two texts by code point, which is the order of
their UTF-8 bytes: is the first strictly below the second. -/
def lexLess : List Char → List Char → Bool
  | _, [] => false
  | [], _ :: _ => true
  | a :: as, b :: bs =>
    if a.toNat < b.toNat then true
    else if a.toNat = b.toNat then lexLess as bs
    else false

/-- The order of keys in the world state: `a < b` on Go strings. -/
def keyLess (a b : String) : Bool := lexLess a.data b.data

/-- Point lookup of a key in the world state. -/
def ledgerLookup : Ledger → String → Option String
  | [], _ => none
  | (k, v) :: rest, key => if key = k then some v else ledgerLookup rest key

/-- Point write: replaces the value of an existing key, otherwise inserts the
entry at its place in ascending key order. -/
def ledgerPut : Ledger → String → String → Ledger
  | [], key, value => [(key, value)]
  | (k, v) :: rest, key, value =>
    if keyLess key k then (key, value) :: (k, v) :: rest
    else if key = k then (key, value) :: rest
    else (k, v) :: ledgerPut rest key value

/-- Entries whose key lies in the half-open interval from `startKey` (inclusive)
to `endKey` (exclusive), in ledger order. -/
def ledgerRange (l : Ledger) (startKey endKey : String) : Ledger :=
  l.filter (fun kv => !keyLess kv.1 startKey && keyLess kv.1 endKey)

/-- A ledger in strictly ascending key order (hence without duplicate keys). -/
def Ledger.Sorted (l : Ledger) : Prop :=
  l.Pairwise (fun a b => keyLess a.1 b.1 = true)

/-- Modelled from the spec: the failures of the underlying store (section 7,
`StoreError`). For each call of the stub, the error it reports, if any.
`GetState` and `PutState` are indexed by the key of the call, `Next` by the key of
the entry the iterator is about to deliver. -/
structure Faults where
  GetState : String → Option String
  PutState : String → Option String
  GetStateByRange : Option String
  Next : String → Option String

/-- A stub none of whose calls fails. -/
def Faults.none : Faults := ⟨fun _ => Option.none, fun _ => Option.none, Option.none, fun _ => Option.none⟩

/-- The stub handed to the chaincode: the world state and the failures of the store. -/
structure ChaincodeStub where
  ledger : Ledger
  faults : Faults

namespace ChaincodeStub

/-- Modelled from the spec: the point read `get(key) -> bytes` of the store
(section 6), which the Fabric shim provides as `GetState(key)`. It returns the
stored bytes and no error; nil bytes and no error for a missing key; nil bytes and
the error when the store fails. -/
def GetState (stub : ChaincodeStub) (key : String) : String × Option String :=
  match stub.faults.GetState key with
  | some err => ("", some err)
  | Option.none => ((ledgerLookup stub.ledger key).getD "", Option.none)

/-- Modelled from the spec: the point write `put(key, value)` of the store
(section 6), which the Fabric shim provides as `PutState(key, value)`. It writes
the entry, or reports the error and writes nothing when the store fails. -/
def PutState (stub : ChaincodeStub) (key value : String) : ChaincodeStub × Option String :=
  match stub.faults.PutState key with
  | some err => (stub, some err)
  | Option.none => (⟨ledgerPut stub.ledger key value, stub.faults⟩, Option.none)

/-- Modelled from the spec: the ordered range scan `scan(startKey, endKeyExclusive)`
of the store (section 6), which the Fabric shim provides as
`GetStateByRange(startKey, endKey)`. It returns an error when the scan cannot be
opened, otherwise the iterator, given as the sequence of results of its `Next`
calls. -/
def GetStateByRange (stub : ChaincodeStub) (startKey endKey : String) :
    Except String (List (Except String (String × String))) :=
  match stub.faults.GetStateByRange with
  | some err => Except.error err
  | Option.none =>
    Except.ok ((ledgerRange stub.ledger startKey endKey).map fun kv =>
      match stub.faults.Next kv.1 with
      | some err => Except.error err
      | Option.none => Except.ok kv)

end ChaincodeStub

/-! ## The record -/

/-- The vote record, with its 5 string properties. -/
structure Asset_Votes where
  Security : String
  Factor : String
  Vote : String
  OwnerId : String
  OwnerDesc : String
deriving DecidableEq, Repr

/-- The zero value `Asset_Votes{}`: every field is the empty string. -/
def Asset_Votes.zero : Asset_Votes := ⟨"", "", "", "", ""⟩

/-! ## `encoding/json`, as far as `Asset_Votes` needs it

`json.Marshal` writes the five fields as a JSON object in declaration order under
their tags `security`, `factor`, `vote`, `ownerid`, `ownerdesc`, escaping strings
the way the encoder does (with HTML escaping on). `json.Unmarshal` first checks
that the whole input is one JSON value, then stores the members of an object into
the fields whose tag matches the member name, exactly or ignoring case. -/

namespace json

/-- The double quote character. -/
def dquote : Char := Char.ofNat 34

/-- The backslash character. -/
def bslash : Char := Char.ofNat 92

/-- Digit `n` of the table `"0123456789abcdef"` used for `\u` escapes. -/
def hex (n : Nat) : Char := "0123456789abcdef".data.getD n '0'

/-- The table `htmlSafeSet`: the ASCII characters written without escaping. -/
def htmlSafeSet (c : Char) : Bool :=
  decide (0x20 ≤ c.toNat) && c != dquote && c != '&' && c != '<' && c != '>' && c != bslash

/-- The encoding of one character inside a string literal. -/
def encodeChar (c : Char) : List Char :=
  if c.toNat < 0x80 then
    if htmlSafeSet c then [c]
    else if c = bslash ∨ c = dquote then [bslash, c]
    else if c = '\n' then [bslash, 'n']
    else if c = '\r' then [bslash, 'r']
    else if c = '\t' then [bslash, 't']
    else [bslash, 'u', '0', '0', hex (c.toNat / 16), hex (c.toNat % 16)]
  else if c.toNat = 0x2028 ∨ c.toNat = 0x2029 then
    [bslash, 'u', '2', '0', '2', hex (c.toNat % 16)]
  else [c]

/-- The characters of a string between its quotes, escaped. -/
def encodeChars : List Char → List Char
  | [] => []
  | c :: cs => encodeChar c ++ encodeChars cs

/-- A Go string as a JSON string literal. -/
def encodeString (s : String) : List Char :=
  dquote :: (encodeChars s.data ++ [dquote])

/-- The encoder output for an `Asset_Votes` value, as characters. -/
def marshalChars (v : Asset_Votes) : List Char :=
  "\x7b\"security\":".data ++ encodeString v.Security ++
  ",\"factor\":".data ++ encodeString v.Factor ++
  ",\"vote\":".data ++ encodeString v.Vote ++
  ",\"ownerid\":".data ++ encodeString v.OwnerId ++
  ",\"ownerdesc\":".data ++ encodeString v.OwnerDesc ++ "\x7d".data

/-- Modelled from the spec: the serialization of a record (section 4.1), which the
code takes from Go's `encoding/json` as `json.Marshal(v)`; for an `Asset_Votes`
value it never reports an error. -/
def Marshal (v : Asset_Votes) : String := String.mk (marshalChars v)

/-- A parsed JSON value. -/
inductive JSON where
  | null
  | bool (b : Bool)
  | number
  | string (s : List Char)
  | array (elems : List JSON)
  | object (members : List (List Char × JSON))

/-- JSON white space: space, tab, carriage return, line feed. -/
def isSpace (c : Char) : Bool := c = ' ' || c = '\t' || c = '\r' || c = '\n'

/-- Drops leading white space. -/
def skipSpace : List Char → List Char
  | [] => []
  | c :: cs => if isSpace c then skipSpace cs else c :: cs

/-- Value of a hexadecimal digit. -/
def hexVal (c : Char) : Option Nat :=
  if '0'.toNat ≤ c.toNat ∧ c.toNat ≤ '9'.toNat then some (c.toNat - '0'.toNat)
  else if 'a'.toNat ≤ c.toNat ∧ c.toNat ≤ 'f'.toNat then some (c.toNat - 'a'.toNat + 10)
  else if 'A'.toNat ≤ c.toNat ∧ c.toNat ≤ 'F'.toNat then some (c.toNat - 'A'.toNat + 10)
  else none

/-- Value of four hexadecimal digits. -/
def hex4 (a b c d : Char) : Option Nat :=
  match hexVal a, hexVal b, hexVal c, hexVal d with
  | some x, some y, some z, some w => some (((x * 16 + y) * 16 + z) * 16 + w)
  | _, _, _, _ => none

/-- The function `getu4`: the value of a leading `\uXXXX` escape, if the text starts with one. -/
def getu4 : List Char → Option Nat
  | e :: u :: a :: b :: c :: d :: _ => if e = bslash ∧ u = 'u' then hex4 a b c d else none
  | _ => none

/-- The replacement character U+FFFD. -/
def replacementChar : Char := Char.ofNat 0xFFFD

/-- The test `utf16.IsSurrogate`. -/
def isSurrogate (r : Nat) : Bool := decide (0xD800 ≤ r) && decide (r < 0xE000)

/-- The function `utf16.DecodeRune`: the code point of a surrogate pair, U+FFFD if the pair is
not valid. -/
def decodeSurrogates (r1 r2 : Nat) : Char :=
  if 0xD800 ≤ r1 ∧ r1 < 0xDC00 ∧ 0xDC00 ≤ r2 ∧ r2 < 0xE000 then
    Char.ofNat ((r1 - 0xD800) * 1024 + (r2 - 0xDC00) + 0x10000)
  else replacementChar

/-- The character of a one-letter escape. -/
def simpleEscape (c : Char) : Option Char :=
  if c = dquote ∨ c = bslash ∨ c = '/' then some c
  else if c = 'b' then some (Char.ofNat 8)
  else if c = 'f' then some (Char.ofNat 12)
  else if c = 'n' then some '\n'
  else if c = 'r' then some '\r'
  else if c = 't' then some '\t'
  else none

/-- One step inside a string literal: `none` for a syntax error, otherwise the
input left and either no character (the closing quote was read) or the next
character of the unquoted text. -/
abbrev StringStep := Option (Option Char × List Char)

/-- A `\u` escape, after the `\u`: four hexadecimal digits. A surrogate combines
with a following low surrogate escape into one code point, or else becomes
U+FFFD. -/
def unicodeStep : List Char → StringStep
  | a :: b :: c :: d :: rest =>
    match hex4 a b c d with
    | none => none
    | some rr =>
      if isSurrogate rr then
        match getu4 rest with
        | some rr1 =>
          if decodeSurrogates rr rr1 = replacementChar then some (some replacementChar, rest)
          else some (some (decodeSurrogates rr rr1), rest.drop 6)
        | none => some (some replacementChar, rest)
      else some (some (Char.ofNat rr), rest)
  | _ => none

/-- An escape, after the backslash. -/
def escapeStep : List Char → StringStep
  | [] => none
  | e :: rest =>
    if e = 'u' then unicodeStep rest
    else
      match simpleEscape e with
      | some ch => some (some ch, rest)
      | none => none

/-- The next step inside a string literal: the closing quote, an escape, or a
plain character; control characters are syntax errors. -/
def stringStep : List Char → StringStep
  | [] => none
  | c :: cs =>
    if c = dquote then some (none, cs)
    else if c = bslash then escapeStep cs
    else if c.toNat < 0x20 then none
    else some (some c, cs)

/-- Repeats `stringStep` up to the closing quote, at most as often as the first
argument says. -/
def scanStringSteps : Nat → List Char → Option (List Char × List Char)
  | 0, _ => none
  | fuel + 1, cs =>
    match stringStep cs with
    | none => none
    | some (none, rest) => some ([], rest)
    | some (some c, rest) => (scanStringSteps fuel rest).map fun r => (c :: r.1, r.2)

/-- Reads a string literal whose opening quote has been consumed: the unquoted
text and the input after the closing quote. Every step consumes input, so as many
steps as the input is long are enough. -/
def scanString (cs : List Char) : Option (List Char × List Char) :=
  scanStringSteps cs.length cs

/-- Is the character a decimal digit. -/
def isDigit (c : Char) : Bool := decide ('0'.toNat ≤ c.toNat) && decide (c.toNat ≤ '9'.toNat)

/-- Drops leading decimal digits. -/
def skipDigits : List Char → List Char
  | [] => []
  | c :: cs => if isDigit c then skipDigits cs else c :: cs

/-- Reads at least one decimal digit, then as many as follow. -/
def scanDigits1 : List Char → Option (List Char)
  | [] => none
  | c :: cs => if isDigit c then some (skipDigits cs) else none

/-- Reads the optional exponent of a number. -/
def scanExponent : List Char → Option (List Char)
  | [] => some []
  | c :: cs =>
    if c = 'e' ∨ c = 'E' then
      match cs with
      | [] => none
      | s :: rest => if s = '+' ∨ s = '-' then scanDigits1 rest else scanDigits1 (s :: rest)
    else some (c :: cs)

/-- Reads the optional fraction of a number and then its optional exponent. -/
def scanFraction : List Char → Option (List Char)
  | [] => some []
  | c :: cs =>
    if c = '.' then
      match scanDigits1 cs with
      | some rest => scanExponent rest
      | none => none
    else scanExponent (c :: cs)

/-- Reads the integer part of a number (after an optional minus sign), then the
rest of the number: a lone `0`, or a non-zero digit and the digits after it. -/
def scanInteger : List Char → Option (List Char)
  | [] => none
  | c :: cs =>
    if c = '0' then scanFraction cs
    else if isDigit c then scanFraction (skipDigits cs)
    else none

/-- Reads a number literal; the result is the input after it. -/
def scanNumber : List Char → Option (List Char)
  | [] => none
  | c :: cs => if c = '-' then scanInteger cs else scanInteger (c :: cs)

mutual

/-- Reads one JSON value from the start of the input: the value and the input left
after it. The first argument bounds the nesting still allowed. -/
def parseValue : Nat → List Char → Option (JSON × List Char)
  | 0, _ => none
  | _, [] => none
  | fuel + 1, c :: cs =>
    if c = '\x7b' then
      match skipSpace cs with
      | [] => none
      | d :: ds =>
        if d = '\x7d' then some (JSON.object [], ds)
        else (parseMembers fuel (d :: ds)).map fun r => (JSON.object r.1, r.2)
    else if c = '[' then
      match skipSpace cs with
      | [] => none
      | d :: ds =>
        if d = ']' then some (JSON.array [], ds)
        else (parseElements fuel (d :: ds)).map fun r => (JSON.array r.1, r.2)
    else if c = dquote then
      (scanString cs).map fun r => (JSON.string r.1, r.2)
    else if c = 't' then
      match cs with
      | 'r' :: 'u' :: 'e' :: rest => some (JSON.bool true, rest)
      | _ => none
    else if c = 'f' then
      match cs with
      | 'a' :: 'l' :: 's' :: 'e' :: rest => some (JSON.bool false, rest)
      | _ => none
    else if c = 'n' then
      match cs with
      | 'u' :: 'l' :: 'l' :: rest => some (JSON.null, rest)
      | _ => none
    else (scanNumber (c :: cs)).map fun rest => (JSON.number, rest)

/-- Reads the members of an object up to and including its closing brace; the
input starts at the first member name. -/
def parseMembers : Nat → List Char → Option (List (List Char × JSON) × List Char)
  | 0, _ => none
  | _, [] => none
  | fuel + 1, c :: cs =>
    if c = dquote then
      match scanString cs with
      | none => none
      | some (key, rest1) =>
        match skipSpace rest1 with
        | [] => none
        | colon :: rest2 =>
          if colon = ':' then
            match parseValue fuel (skipSpace rest2) with
            | none => none
            | some (val, rest3) =>
              match skipSpace rest3 with
              | [] => none
              | sep :: rest4 =>
                if sep = ',' then
                  (parseMembers fuel (skipSpace rest4)).map fun r => ((key, val) :: r.1, r.2)
                else if sep = '\x7d' then some ([(key, val)], rest4)
                else none
          else none
    else none

/-- Reads the elements of an array up to and including its closing bracket. -/
def parseElements : Nat → List Char → Option (List JSON × List Char)
  | 0, _ => none
  | fuel + 1, cs =>
    match parseValue fuel cs with
    | none => none
    | some (val, rest1) =>
      match skipSpace rest1 with
      | [] => none
      | sep :: rest2 =>
        if sep = ',' then
          (parseElements fuel (skipSpace rest2)).map fun r => (val :: r.1, r.2)
        else if sep = ']' then some ([val], rest2)
        else none

end

/-- The check `checkValid` and the parse it guards: the input must be exactly one JSON value,
white space allowed around it. Every nested read consumes input first, so the
nesting bound `length + 1` is never the reason for a rejection. -/
def parse (data : List Char) : Option JSON :=
  match parseValue (data.length + 1) (skipSpace data) with
  | some (j, rest) => if skipSpace rest = [] then some j else none
  | none => none

/-- The errors `json.Unmarshal` reports. -/
inductive UnmarshalError where
  | SyntaxError
  | UnmarshalTypeError
deriving DecidableEq, Repr

/-- The fields of `Asset_Votes`, in declaration order. -/
inductive Field where
  | Security | Factor | Vote | OwnerId | OwnerDesc
deriving DecidableEq, Repr

/-- The JSON name of a field, from its struct tag. -/
def Field.name : Field → List Char
  | Field.Security => "security".data
  | Field.Factor => "factor".data
  | Field.Vote => "vote".data
  | Field.OwnerId => "ownerid".data
  | Field.OwnerDesc => "ownerdesc".data

/-- The fields in declaration order. -/
def fields : List Field := [Field.Security, Field.Factor, Field.Vote, Field.OwnerId, Field.OwnerDesc]

/-- The comparison `simpleLetterEqualFold`: same length and equal up to the case bit, for a name
made of ASCII letters only. A non-ASCII character of `t` never matches. -/
def simpleLetterEqualFold : List Char → List Char → Bool
  | [], [] => true
  | sb :: s, tb :: t =>
    decide (tb.toNat < 0x80) && decide (sb.toNat &&& 0xDF = tb.toNat &&& 0xDF) &&
      simpleLetterEqualFold s t
  | _, _ => false

/-- The comparison `equalFoldRight`: ASCII letters match ignoring case, other ASCII characters
match exactly, and in `t` the long s (U+017F) stands for `s` and the Kelvin sign
(U+212A) for `k`. -/
def equalFoldRight : List Char → List Char → Bool
  | [], [] => true
  | sb :: s, tb :: t =>
    (if tb.toNat < 0x80 then
      decide (sb = tb) ||
        (decide ('A'.toNat ≤ (sb.toNat &&& 0xDF)) && decide ((sb.toNat &&& 0xDF) ≤ 'Z'.toNat) &&
          decide (sb.toNat &&& 0xDF = tb.toNat &&& 0xDF))
    else if sb = 's' ∨ sb = 'S' then decide (tb.toNat = 0x17F)
    else if sb = 'k' ∨ sb = 'K' then decide (tb.toNat = 0x212A)
    else false) && equalFoldRight s t
  | _, _ => false

/-- The case-insensitive comparison chosen for a field name by `foldFunc`: names
with an `s` or a `k` use `equalFoldRight`, the other all-letter names use
`simpleLetterEqualFold`. -/
def Field.equalFold : Field → List Char → Bool
  | Field.Security, key => equalFoldRight Field.Security.name key
  | Field.Factor, key => simpleLetterEqualFold Field.Factor.name key
  | Field.Vote, key => simpleLetterEqualFold Field.Vote.name key
  | Field.OwnerId, key => simpleLetterEqualFold Field.OwnerId.name key
  | Field.OwnerDesc, key => equalFoldRight Field.OwnerDesc.name key

/-- The field a member name selects: the field with exactly that name, otherwise
the first field matching it ignoring case. -/
def findField (key : List Char) : Option Field :=
  match fields.find? (fun f => decide (f.name = key)) with
  | some f => some f
  | none => fields.find? (fun f => f.equalFold key)

/-- Stores a string into a field. -/
def setField (v : Asset_Votes) : Field → String → Asset_Votes
  | Field.Security, s => { v with Security := s }
  | Field.Factor, s => { v with Factor := s }
  | Field.Vote, s => { v with Vote := s }
  | Field.OwnerId, s => { v with OwnerId := s }
  | Field.OwnerDesc, s => { v with OwnerDesc := s }

/-- Stores the members of an object into the record, in input order: a string goes
into the field its name selects, `null` leaves the field alone, a value of any
other kind leaves the field alone and is remembered as a type error (the first
one is kept), and members selecting no field are skipped. -/
def decodeMembers : List (List Char × JSON) → Asset_Votes → Option UnmarshalError →
    Asset_Votes × Option UnmarshalError
  | [], v, err => (v, err)
  | (key, val) :: rest, v, err =>
    match findField key with
    | none => decodeMembers rest v err
    | some f =>
      match val with
      | JSON.string s => decodeMembers rest (setField v f (String.mk s)) err
      | JSON.null => decodeMembers rest v err
      | _ => decodeMembers rest v (err.orElse fun _ => some UnmarshalError.UnmarshalTypeError)

/-- Stores a parsed value into the record: an object member by member, `null` not
at all, and any other value is a type error that leaves the record as it was. -/
def decode (j : JSON) (v : Asset_Votes) : Asset_Votes × Option UnmarshalError :=
  match j with
  | JSON.object members => decodeMembers members v none
  | JSON.null => (v, none)
  | _ => (v, some UnmarshalError.UnmarshalTypeError)

/-- Modelled from the spec: the deserialization of a record (section 4.1), which
the code takes from Go's `encoding/json` as `json.Unmarshal(data, &v)`. The result
is the record after the call and the error returned; input that is not valid JSON
is rejected before anything is stored. -/
def Unmarshal (data : String) (v : Asset_Votes) : Asset_Votes × Option UnmarshalError :=
  match parse data.data with
  | none => (v, some UnmarshalError.SyntaxError)
  | some j => decode j v

end json

/-! ## The smart contract -/

namespace strconv

/-- The conversion `strconv.Itoa` on a non-negative index: its decimal digits. -/
def Itoa (i : Nat) : String := String.mk (Nat.toDigits 10 i)

end strconv

/-- The method `Init`: succeeds with no payload and touches nothing. -/
def Init (stub : ChaincodeStub) : Response × ChaincodeStub :=
  (shim.Success "", stub)

/-- The method `queryVoter`: the response and the stub after the call. -/
def queryVoter (stub : ChaincodeStub) (args : List String) : Response × ChaincodeStub :=
  if args.length ≠ 1 then
    (shim.Error "Incorrect number of arguments. Expecting 1", stub)
  else
    let voterAsBytes := (stub.GetState (args.getD 0 "")).1
    (shim.Success voterAsBytes, stub)

/-- The hardcoded records written by `initLedger`. -/
def voters : List Asset_Votes :=
  [ ⟨"PIN", "100", "SINVOTAR", "12345", "Homero Simpson"⟩,
    ⟨"PIN", "120", "SINVOTAR", "67890", "Peter Griffin"⟩,
    ⟨"PIN", "200", "SINVOTAR", "654321", "Jhon Smith"⟩,
    ⟨"PIN", "1000", "SINVOTAR", "098765", "Chaparron Bonaparte"⟩,
    ⟨"PIN", "50", "SINVOTAR", "A23421", "Sun Wukong"⟩,
    ⟨"PIN", "80", "SINVOTAR", "98765", "Seiya Shiryu"⟩,
    ⟨"PIN", "250", "SINVOTAR", "765890", "Ned Flanders"⟩,
    ⟨"PIN", "40", "SINVOTAR", "777888", "Carlos Donoso"⟩,
    ⟨"PIN", "5", "SINVOTAR", "877899", "Ramon Valdes"⟩,
    ⟨"PIN", "500", "SINVOTAR", "131313", "Roberto Gomez"⟩ ]

/-- The loop of `initLedger`, at index `i` with the records from `i` on still to
write: each record is marshalled and put under `"VOTER" + Itoa(i)`; the error of
`PutState` is dropped. -/
def initLedgerLoop : Nat → List Asset_Votes → ChaincodeStub → ChaincodeStub
  | _, [], stub => stub
  | i, voter :: rest, stub =>
    let voterAsBytes := json.Marshal voter
    let stub := (stub.PutState ("VOTER" ++ strconv.Itoa i) voterAsBytes).1
    initLedgerLoop (i + 1) rest stub

/-- The method `initLedger`: runs the loop from index 0 over `voters` and succeeds
with no payload. -/
def initLedger (stub : ChaincodeStub) : Response × ChaincodeStub :=
  (shim.Success "", initLedgerLoop 0 voters stub)

/-- The loop of `queryAllVotes` over the results of the iterator, with the buffer
so far and the flag `bArrayMemberAlreadyWritten`: the finished buffer (before the
closing bracket), or the error of the first `Next` that fails. -/
def queryAllVotesLoop : List (Except String (String × String)) → String → Bool →
    Except String String
  | [], buffer, _ => Except.ok buffer
  | next :: rest, buffer, bArrayMemberAlreadyWritten =>
    match next with
    | Except.error err => Except.error err
    | Except.ok queryResponse =>
      let buffer := if bArrayMemberAlreadyWritten = true then buffer ++ "," else buffer
      let buffer := buffer ++ "\x7b\"Key\":"
      let buffer := buffer ++ "\""
      let buffer := buffer ++ queryResponse.1
      let buffer := buffer ++ "\""
      let buffer := buffer ++ ", \"Record\":"
      let buffer := buffer ++ queryResponse.2
      let buffer := buffer ++ "\x7d"
      queryAllVotesLoop rest buffer true

/-- The method `queryAllVotes`: scans from `"VOTER0"` to `"VOTER999"` and returns
the buffer as payload, or the error of the scan. -/
def queryAllVotes (stub : ChaincodeStub) : Response × ChaincodeStub :=
  let startKey := "VOTER0"
  let endKey := "VOTER999"
  match stub.GetStateByRange startKey endKey with
  | Except.error err => (shim.Error err, stub)
  | Except.ok resultsIterator =>
    match queryAllVotesLoop resultsIterator "[" false with
    | Except.error err => (shim.Error err, stub)
    | Except.ok buffer => (shim.Success (buffer ++ "]"), stub)

/-- The method `doVoting`: the response and the stub after the call. The errors of
`GetState`, `json.Unmarshal`, `json.Marshal` and `PutState` are dropped. -/
def doVoting (stub : ChaincodeStub) (args : List String) : Response × ChaincodeStub :=
  if args.length ≠ 2 then
    (shim.Error "Incorrect number of arguments. Expecting 2", stub)
  else
    let voterAsBytes := (stub.GetState (args.getD 0 "")).1
    let vote := Asset_Votes.zero
    let vote := (json.Unmarshal voterAsBytes vote).1
    if vote.Vote = "SINVOTAR" then
      let vote := { vote with Vote := args.getD 1 "" }
      let voterAsBytes := json.Marshal vote
      let stub := (stub.PutState (args.getD 0 "") voterAsBytes).1
      (shim.Success "", stub)
    else
      (shim.Error "Already voted before!, you can only vote once", stub)

/-- The method `Invoke`, with the function name and arguments of the request
(`GetFunctionAndParameters`) given explicitly. -/
def Invoke (stub : ChaincodeStub) (function : String) (args : List String) :
    Response × ChaincodeStub :=
  if function = "queryVoter" then queryVoter stub args
  else if function = "initLedger" then initLedger stub
  else if function = "queryAllVotes" then queryAllVotes stub
  else if function = "doVoting" then doVoting stub args
  else (shim.Error "Invalid Smart Contract function name.", stub)

/-! ## Observations and sample states used in the statements -/

/-- The bytes held in the world state at a key; nil when the key is absent. -/
def ChaincodeStub.stored (stub : ChaincodeStub) (key : String) : String :=
  (ledgerLookup stub.ledger key).getD ""

/-- The record the bytes held at a key deserialize to: `json.Unmarshal` into a
zero record, with its error dropped the way `doVoting` drops it. -/
def ChaincodeStub.record (stub : ChaincodeStub) (key : String) : Asset_Votes :=
  (json.Unmarshal (stub.stored key) Asset_Votes.zero).1

/-- The message of the failure returned for a record that has voted. -/
def alreadyVoted : String := "Already voted before!, you can only vote once"

/-- An empty world state behind a store that never fails. -/
def emptyStub : ChaincodeStub := ⟨[], Faults.none⟩

/-- The state after `initLedger` on the empty world state. -/
def seededStub : ChaincodeStub := (initLedger emptyStub).2

/-- The seeded state after `"VOTER0"` has voted for `"CANDIDATE_A"`. -/
def votedStub : ChaincodeStub := (doVoting seededStub ["VOTER0", "CANDIDATE_A"]).2

/-- A store whose point read of `"VOTER0"` fails, over the seeded world state. -/
def readFailureStub : ChaincodeStub :=
  ⟨seededStub.ledger,
    ⟨fun key => if key = "VOTER0" then some "GET_STATE failed" else none,
      fun _ => none, none, fun _ => none⟩⟩

/-- A store whose write of `"VOTER3"` fails, over an empty world state. -/
def writeFailureStub : ChaincodeStub :=
  ⟨[], ⟨fun _ => none,
    fun key => if key = "VOTER3" then some "PUT_STATE failed" else none,
    none, fun _ => none⟩⟩

/-- The array element `queryAllVotes` is to write for an entry: an object with
the key, quoted, under `Key` and the stored value, as it is, under `Record`. -/
def renderEntry (kv : String × String) : String :=
  "\x7b\"Key\":\"" ++ kv.1 ++ "\", \"Record\":" ++ kv.2 ++ "\x7d"

/-- The array `queryAllVotes` is to write for a sequence of entries: an opening
bracket, the elements separated by commas, a closing bracket. -/
def renderArray (entries : List (String × String)) : String :=
  "[" ++ ",".intercalate (entries.map renderEntry) ++ "]"

namespace json

/-- The value of the first member of an object with the given name. -/
def JSON.member (name : String) : JSON → Option JSON
  | JSON.object members => (members.find? fun m => decide (m.1 = name.data)).map Prod.snd
  | _ => none

/-- The text of a JSON string. -/
def JSON.text : JSON → Option String
  | JSON.string s => some (String.mk s)
  | _ => none

/-- Reads an element of the scan output: its `Key` and the `vote` of its `Record`. -/
def entryKeyVote (j : JSON) : Option (String × String) :=
  match (j.member "Key").bind JSON.text,
      ((j.member "Record").bind (JSON.member "vote")).bind JSON.text with
  | some key, some vote => some (key, vote)
  | _, _ => none

/-- Reads a scan output: the `Key` and `Record.vote` of every element of the array,
in order; nothing if the value is not an array of such elements. -/
def scanKeysVotes : JSON → Option (List (String × String))
  | JSON.array elems => elems.mapM entryKeyVote
  | _ => none

end json

/-- A store whose range scan cannot be opened, over the seeded world state. -/
def scanFailureStub : ChaincodeStub :=
  ⟨seededStub.ledger,
    ⟨fun _ => none, fun _ => none, some "GET_STATE_BY_RANGE failed", fun _ => none⟩⟩

/-- A store whose iterator fails when it is to deliver `"VOTER3"`, over the seeded
world state. -/
def nextFailureStub : ChaincodeStub :=
  ⟨seededStub.ledger,
    ⟨fun _ => none, fun _ => none, none,
      fun key => if key = "VOTER3" then some "QUERY_STATE_NEXT failed" else none⟩⟩

/-- A world state whose `"VOTER0"` holds bytes that are not JSON at all. -/
def malformedStub : ChaincodeStub :=
  ⟨[("VOTER0", "not a record")], Faults.none⟩

/-- A world state whose `"VOTER0"` holds a JSON object that is not a serialized
record, its `factor` being a number, and whose `vote` is the sentinel. -/
def mistypedStub : ChaincodeStub :=
  ⟨[("VOTER0", "\x7b\"vote\":\"SINVOTAR\",\"factor\":5\x7d")], Faults.none⟩

/-- A sequence of invocations, each a function name with its arguments, run
through `Invoke` one after the other: the stub after the last one. -/
def runInvocations : ChaincodeStub → List (String × List String) → ChaincodeStub
  | stub, [] => stub
  | stub, call :: rest => runInvocations (Invoke stub call.1 call.2).2 rest

/-- A world state that holds one record, under the key `"VOTER999"`. -/
def lastKeyStub : ChaincodeStub :=
  ⟨[("VOTER999", json.Marshal ⟨"PIN", "1", "SINVOTAR", "999", "Last Voter"⟩)], Faults.none⟩

/-- A world state that holds two records, under the keys `"VOTER998"` and
`"VOTER999"`. -/
def lastKeysStub : ChaincodeStub :=
  ⟨[("VOTER998", json.Marshal ⟨"PIN", "1", "SINVOTAR", "998", "Voter Before Last"⟩),
    ("VOTER999", json.Marshal ⟨"PIN", "1", "SINVOTAR", "999", "Last Voter"⟩)], Faults.none⟩

end Voting

/-! # Theorems -/

set_option maxRecDepth 10000

namespace Voting

/-! ## The ledger -/

theorem ledgerLookup_put_same (l : Ledger) (key value : String) :
    ledgerLookup (ledgerPut l key value) key = some value := by
  induction l with
  | nil => simp [ledgerPut, ledgerLookup]
  | cons kv rest ih =>
    obtain ⟨k, v⟩ := kv
    unfold ledgerPut
    by_cases h1 : keyLess key k = true
    · simp [h1, ledgerLookup]
    · by_cases h2 : key = k
      · subst h2
        simp [h1, ledgerLookup]
      · simp [h1, h2, ledgerLookup, ih]

theorem ledgerLookup_put_other (l : Ledger) (key value other : String) (h : other ≠ key) :
    ledgerLookup (ledgerPut l key value) other = ledgerLookup l other := by
  induction l with
  | nil => simp [ledgerPut, ledgerLookup, h]
  | cons kv rest ih =>
    obtain ⟨k, v⟩ := kv
    unfold ledgerPut
    by_cases h1 : keyLess key k = true
    · simp [h1, ledgerLookup, h]
    · by_cases h2 : key = k
      · subst h2
        simp [h1, ledgerLookup, h]
      · by_cases h3 : other = k
        · simp [h1, h2, h3, ledgerLookup]
        · simp [h1, h2, h3, ledgerLookup, ih]

/-! ## The key order, and ledgers in ascending key order -/

theorem toNat_inj (a b : Char) (h : a.toNat = b.toNat) : a = b := by
  rw [← Char.ofNat_toNat a, ← Char.ofNat_toNat b, h]

theorem lexLess_cons (x y : Char) (xs ys : List Char) :
    lexLess (x :: xs) (y :: ys) =
      if x.toNat < y.toNat then true else if x.toNat = y.toNat then lexLess xs ys else false :=
  rfl

theorem lexLess_trans (a b c : List Char) (hab : lexLess a b = true) (hbc : lexLess b c = true) :
    lexLess a c = true := by
  induction a generalizing b c with
  | nil =>
    cases c with
    | nil => cases b <;> simp [lexLess] at hbc
    | cons z zs => rfl
  | cons x xs ih =>
    cases b with
    | nil => simp [lexLess] at hab
    | cons y ys =>
      cases c with
      | nil => simp [lexLess] at hbc
      | cons z zs =>
        rw [lexLess_cons] at hab hbc ⊢
        by_cases hxy : x.toNat < y.toNat
        · by_cases hyz : y.toNat < z.toNat
          · rw [if_pos (by omega)]
          · rw [if_neg hyz] at hbc
            by_cases hyz2 : y.toNat = z.toNat
            · rw [if_pos (by omega)]
            · rw [if_neg hyz2] at hbc
              exact absurd hbc (by decide)
        · rw [if_neg hxy] at hab
          by_cases hxy2 : x.toNat = y.toNat
          · rw [if_pos hxy2] at hab
            by_cases hyz : y.toNat < z.toNat
            · rw [if_pos (by omega)]
            · rw [if_neg hyz] at hbc
              by_cases hyz2 : y.toNat = z.toNat
              · rw [if_pos hyz2] at hbc
                rw [if_neg (by omega), if_pos (by omega)]
                exact ih ys zs hab hbc
              · rw [if_neg hyz2] at hbc
                exact absurd hbc (by decide)
          · rw [if_neg hxy2] at hab
            exact absurd hab (by decide)

theorem lexLess_connex (a b : List Char) (h1 : lexLess a b = false) (h2 : a ≠ b) :
    lexLess b a = true := by
  induction a generalizing b with
  | nil =>
    cases b with
    | nil => exact absurd rfl h2
    | cons y ys => simp [lexLess] at h1
  | cons x xs ih =>
    cases b with
    | nil => rfl
    | cons y ys =>
      rw [lexLess_cons] at h1 ⊢
      by_cases hxy : x.toNat < y.toNat
      · rw [if_pos hxy] at h1
        exact absurd h1 (by decide)
      · rw [if_neg hxy] at h1
        by_cases hxy2 : x.toNat = y.toNat
        · rw [if_pos hxy2] at h1
          have hc : x = y := toNat_inj x y hxy2
          subst hc
          rw [if_neg hxy, if_pos rfl]
          exact ih ys h1 (fun h => h2 (by rw [h]))
        · rw [if_pos (by omega)]

theorem keyLess_trans (a b c : String) (hab : keyLess a b = true) (hbc : keyLess b c = true) :
    keyLess a c = true :=
  lexLess_trans _ _ _ hab hbc

theorem keyLess_connex (a b : String) (h1 : keyLess a b = false) (h2 : a ≠ b) :
    keyLess b a = true :=
  lexLess_connex _ _ h1 (fun h => h2 (String.ext h))

theorem mem_ledgerPut (l : Ledger) (key value : String) (x : String × String)
    (h : x ∈ ledgerPut l key value) : x ∈ l ∨ x = (key, value) := by
  induction l with
  | nil =>
    simp only [ledgerPut, List.mem_singleton] at h
    exact Or.inr h
  | cons kv rest ih =>
    obtain ⟨k, v⟩ := kv
    simp only [ledgerPut] at h
    split_ifs at h with h1 h2
    · rcases List.mem_cons.mp h with h | h
      · exact Or.inr h
      · exact Or.inl h
    · rcases List.mem_cons.mp h with h | h
      · exact Or.inr h
      · exact Or.inl (List.mem_cons_of_mem _ h)
    · rcases List.mem_cons.mp h with h | h
      · exact Or.inl (h ▸ List.mem_cons_self _ _)
      · rcases ih h with h | h
        · exact Or.inl (List.mem_cons_of_mem _ h)
        · exact Or.inr h

/-- A point write keeps the ledger in strictly ascending key order. -/
theorem ledgerPut_sorted (l : Ledger) (key value : String) (hs : l.Sorted) :
    (ledgerPut l key value).Sorted := by
  unfold Ledger.Sorted at hs ⊢
  induction l with
  | nil => simp [ledgerPut]
  | cons kv rest ih =>
    obtain ⟨k, v⟩ := kv
    obtain ⟨hhead, htail⟩ := List.pairwise_cons.mp hs
    simp only [ledgerPut]
    split_ifs with h1 h2
    · refine List.pairwise_cons.mpr ⟨?_, hs⟩
      intro x hx
      rcases List.mem_cons.mp hx with hx | hx
      · rw [hx]; exact h1
      · exact keyLess_trans _ _ _ h1 (hhead x hx)
    · subst h2
      exact List.pairwise_cons.mpr ⟨hhead, htail⟩
    · refine List.pairwise_cons.mpr ⟨?_, ih htail⟩
      intro x hx
      rcases mem_ledgerPut rest key value x hx with hx | hx
      · exact hhead x hx
      · rw [hx]
        exact keyLess_connex key k (by simpa using h1) h2

/-! ## The JSON codec -/

namespace json

theorem hexVal_hex (d : Nat) (h : d < 16) : hexVal (hex d) = some d := by
  revert d
  decide

theorem hex4_byte (n : Nat) (h : n < 256) :
    hex4 '0' '0' (hex (n / 16)) (hex (n % 16)) = some n := by
  have h1 : hexVal (hex (n / 16)) = some (n / 16) := hexVal_hex _ (by omega)
  have h2 : hexVal (hex (n % 16)) = some (n % 16) := hexVal_hex _ (by omega)
  have h0 : hexVal '0' = some 0 := by decide
  simp only [hex4, h0, h1, h2]
  congr 1
  omega

theorem stringStep_unicode (a b c d : Char) (rest : List Char) :
    stringStep (bslash :: 'u' :: a :: b :: c :: d :: rest) =
      unicodeStep (a :: b :: c :: d :: rest) := rfl

theorem stringStep_encodeChar (c : Char) (rest : List Char) :
    stringStep (encodeChar c ++ rest) = some (some c, rest) := by
  unfold encodeChar
  by_cases hlt : c.toNat < 0x80
  · rw [if_pos hlt]
    by_cases hsafe : htmlSafeSet c = true
    · rw [if_pos hsafe]
      simp only [htmlSafeSet, Bool.and_eq_true, decide_eq_true_eq, bne_iff_ne, ne_eq] at hsafe
      obtain ⟨⟨⟨⟨⟨h20, hq⟩, _⟩, _⟩, _⟩, hb⟩ := hsafe
      simp [stringStep, hq, hb]
      omega
    · rw [if_neg hsafe]
      by_cases h1 : c = bslash ∨ c = dquote
      · rw [if_pos h1]
        rcases h1 with h1 | h1 <;> subst h1 <;> rfl
      · rw [if_neg h1]
        by_cases h2 : c = '\n'
        · subst h2; rfl
        · rw [if_neg h2]
          by_cases h3 : c = '\r'
          · subst h3; rfl
          · rw [if_neg h3]
            by_cases h4 : c = '\t'
            · subst h4; rfl
            · rw [if_neg h4]
              show stringStep (bslash :: 'u' :: '0' :: '0' :: hex (c.toNat / 16) ::
                hex (c.toNat % 16) :: rest) = _
              rw [stringStep_unicode]
              have hs : isSurrogate c.toNat = false := by
                simp [isSurrogate]; omega
              simp [unicodeStep, hex4_byte c.toNat (by omega), hs, Char.ofNat_toNat]
  · rw [if_neg hlt]
    have hq : c ≠ dquote := by
      rintro rfl; exact hlt (by decide)
    have hb : c ≠ bslash := by
      rintro rfl; exact hlt (by decide)
    by_cases h1 : c.toNat = 0x2028 ∨ c.toNat = 0x2029
    · rw [if_pos h1]
      have hc : c = Char.ofNat c.toNat := (Char.ofNat_toNat c).symm
      rcases h1 with h1 | h1 <;> rw [h1] at hc <;> subst hc <;> rfl
    · rw [if_neg h1]
      simp [stringStep, hq, hb]
      omega

theorem scanStringSteps_encodeChars (s rest : List Char) (fuel : Nat) (h : s.length < fuel) :
    scanStringSteps fuel (encodeChars s ++ dquote :: rest) = some (s, rest) := by
  induction s generalizing fuel with
  | nil =>
    obtain ⟨n, rfl⟩ : ∃ n, fuel = n + 1 := ⟨fuel - 1, by omega⟩
    rfl
  | cons c cs ih =>
    obtain ⟨n, rfl⟩ : ∃ n, fuel = n + 1 := ⟨fuel - 1, by omega⟩
    simp only [List.length_cons] at h
    simp only [encodeChars, List.append_assoc, scanStringSteps, stringStep_encodeChar]
    rw [ih n (by omega)]
    rfl

theorem length_le_encodeChars (s : List Char) : s.length ≤ (encodeChars s).length := by
  induction s with
  | nil => simp [encodeChars]
  | cons c cs ih =>
    have : 1 ≤ (encodeChar c).length := by
      unfold encodeChar
      split_ifs <;> simp
    simp only [encodeChars, List.length_cons, List.length_append]
    omega

theorem scanString_encodeChars (s rest : List Char) :
    scanString (encodeChars s ++ dquote :: rest) = some (s, rest) := by
  unfold scanString
  apply scanStringSteps_encodeChars
  have := length_le_encodeChars s
  simp only [List.length_append, List.length_cons]
  omega

theorem skipSpace_dquote (cs : List Char) : skipSpace (dquote :: cs) = dquote :: cs := rfl

theorem parseValue_string (fuel : Nat) (cs : List Char) :
    parseValue (fuel + 1) (dquote :: cs) =
      (scanString cs).map fun r => (JSON.string r.1, r.2) := by
  rfl

theorem parseValue_object (fuel : Nat) (cs : List Char) :
    parseValue (fuel + 1) ('\x7b' :: dquote :: cs) =
      (parseMembers fuel (dquote :: cs)).map fun r => (JSON.object r.1, r.2) := by
  rfl

theorem parseMembers_string_comma (fuel : Nat) (key val rest : List Char)
    (hkey : encodeChars key = key) :
    parseMembers (fuel + 2)
        (dquote :: (key ++ dquote :: ':' :: dquote :: (encodeChars val ++ dquote :: ',' :: dquote :: rest))) =
      (parseMembers (fuel + 1) (dquote :: rest)).map
        fun r => ((key, JSON.string val) :: r.1, r.2) := by
  have hk := scanString_encodeChars key
    (':' :: dquote :: (encodeChars val ++ dquote :: ',' :: dquote :: rest))
  rw [hkey] at hk
  have hv := scanString_encodeChars val (',' :: dquote :: rest)
  have e1 : skipSpace (':' :: dquote :: (encodeChars val ++ dquote :: ',' :: dquote :: rest)) =
      ':' :: dquote :: (encodeChars val ++ dquote :: ',' :: dquote :: rest) := rfl
  have e2 : skipSpace (',' :: dquote :: rest) = ',' :: dquote :: rest := rfl
  rw [parseMembers, if_pos rfl, hk]
  simp only
  rw [e1]
  simp only [↓reduceIte]
  rw [skipSpace_dquote, parseValue_string, hv]
  simp only [Option.map_some', e2, ↓reduceIte, skipSpace_dquote]

theorem parseMembers_string_close (fuel : Nat) (key val rest : List Char)
    (hkey : encodeChars key = key) :
    parseMembers (fuel + 2)
        (dquote :: (key ++ dquote :: ':' :: dquote :: (encodeChars val ++ dquote :: '\x7d' :: rest))) =
      some ([(key, JSON.string val)], rest) := by
  have hk := scanString_encodeChars key
    (':' :: dquote :: (encodeChars val ++ dquote :: '\x7d' :: rest))
  rw [hkey] at hk
  have hv := scanString_encodeChars val ('\x7d' :: rest)
  have e1 : skipSpace (':' :: dquote :: (encodeChars val ++ dquote :: '\x7d' :: rest)) =
      ':' :: dquote :: (encodeChars val ++ dquote :: '\x7d' :: rest) := rfl
  have e2 : skipSpace ('\x7d' :: rest) = '\x7d' :: rest := rfl
  rw [parseMembers, if_pos rfl, hk]
  simp only
  rw [e1]
  simp only [↓reduceIte]
  rw [skipSpace_dquote, parseValue_string, hv]
  simp only [Option.map_some', e2]
  have hne : ¬ ('\x7d' = ',') := by decide
  simp only [↓reduceIte, hne]

theorem marshalChars_eq (v : Asset_Votes) :
    marshalChars v =
      '\x7b' :: dquote :: ("security".data ++ dquote :: ':' :: dquote ::
        (encodeChars v.Security.data ++ dquote :: ',' :: dquote ::
      ("factor".data ++ dquote :: ':' :: dquote ::
        (encodeChars v.Factor.data ++ dquote :: ',' :: dquote ::
      ("vote".data ++ dquote :: ':' :: dquote ::
        (encodeChars v.Vote.data ++ dquote :: ',' :: dquote ::
      ("ownerid".data ++ dquote :: ':' :: dquote ::
        (encodeChars v.OwnerId.data ++ dquote :: ',' :: dquote ::
      ("ownerdesc".data ++ dquote :: ':' :: dquote ::
        (encodeChars v.OwnerDesc.data ++ dquote :: '\x7d' :: [])))))))))) := by
  simp only [marshalChars, encodeString, List.append_assoc, List.cons_append, List.nil_append]
  rfl

theorem parseValue_marshalChars (v : Asset_Votes) (fuel : Nat) :
    parseValue (fuel + 7) (marshalChars v) =
      some (JSON.object
        [("security".data, JSON.string v.Security.data),
         ("factor".data, JSON.string v.Factor.data),
         ("vote".data, JSON.string v.Vote.data),
         ("ownerid".data, JSON.string v.OwnerId.data),
         ("ownerdesc".data, JSON.string v.OwnerDesc.data)], []) := by
  rw [marshalChars_eq, parseValue_object,
    parseMembers_string_comma (fuel + 4) _ _ _ (by decide),
    parseMembers_string_comma (fuel + 3) _ _ _ (by decide),
    parseMembers_string_comma (fuel + 2) _ _ _ (by decide),
    parseMembers_string_comma (fuel + 1) _ _ _ (by decide),
    parseMembers_string_close fuel _ _ _ (by decide)]
  rfl

theorem length_marshalChars (v : Asset_Votes) : 6 ≤ (marshalChars v).length := by
  rw [marshalChars_eq]
  simp only [List.length_cons, List.length_append]
  omega

theorem parse_marshalChars (v : Asset_Votes) :
    parse (marshalChars v) =
      some (JSON.object
        [("security".data, JSON.string v.Security.data),
         ("factor".data, JSON.string v.Factor.data),
         ("vote".data, JSON.string v.Vote.data),
         ("ownerid".data, JSON.string v.OwnerId.data),
         ("ownerdesc".data, JSON.string v.OwnerDesc.data)]) := by
  have hs : skipSpace (marshalChars v) = marshalChars v := by
    rw [marshalChars_eq]
    rfl
  obtain ⟨n, hn⟩ : ∃ n, (marshalChars v).length + 1 = n + 7 :=
    ⟨(marshalChars v).length - 6, by have := length_marshalChars v; omega⟩
  unfold parse
  rw [hs, hn, parseValue_marshalChars]
  rfl

/-- Decoding what `json.Marshal` wrote gives back the record, whatever the target
held before, and reports no error. -/
theorem Unmarshal_Marshal (v target : Asset_Votes) :
    Unmarshal (Marshal v) target = (v, none) := by
  unfold Unmarshal Marshal
  rw [parse_marshalChars]
  rfl

end json

/-! ## `doVoting` -/

theorem Unmarshal_nil : (json.Unmarshal "" Asset_Votes.zero).1 = Asset_Votes.zero := by
  decide

theorem doVoting_pair (stub : ChaincodeStub) (k v : String) :
    doVoting stub [k, v] =
      if ((json.Unmarshal (stub.GetState k).1 Asset_Votes.zero).1).Vote = "SINVOTAR" then
        (shim.Success "",
          (stub.PutState k (json.Marshal
            { (json.Unmarshal (stub.GetState k).1 Asset_Votes.zero).1 with Vote := v })).1)
      else (shim.Error alreadyVoted, stub) := by
  simp [doVoting, alreadyVoted]

theorem GetState_of_ok (stub : ChaincodeStub) (k : String) (h : stub.faults.GetState k = none) :
    stub.GetState k = (stub.stored k, none) := by
  simp [ChaincodeStub.GetState, ChaincodeStub.stored, h]

theorem PutState_of_ok (stub : ChaincodeStub) (k value : String)
    (h : stub.faults.PutState k = none) :
    stub.PutState k value = (⟨ledgerPut stub.ledger k value, stub.faults⟩, none) := by
  simp [ChaincodeStub.PutState, h]

theorem stored_put_same (l : Ledger) (f : Faults) (k value : String) :
    (ChaincodeStub.mk (ledgerPut l k value) f).stored k = value := by
  simp [ChaincodeStub.stored, ledgerLookup_put_same]

theorem stored_put_other (l : Ledger) (f : Faults) (k value other : String) (h : other ≠ k) :
    (ChaincodeStub.mk (ledgerPut l k value) f).stored other = (ChaincodeStub.mk l f).stored other := by
  simp [ChaincodeStub.stored, ledgerLookup_put_other _ _ _ _ h]

/-- A vote on a record that holds the sentinel, with the read and the write of the
key both working: success with no payload, and the key now holds the marshalled
record with the vote replaced. -/
theorem doVoting_accept (stub : ChaincodeStub) (k v : String)
    (hget : stub.faults.GetState k = none) (hput : stub.faults.PutState k = none)
    (hvote : (stub.record k).Vote = "SINVOTAR") :
    doVoting stub [k, v] =
      (shim.Success "",
        ⟨ledgerPut stub.ledger k (json.Marshal { stub.record k with Vote := v }), stub.faults⟩) := by
  rw [doVoting_pair, GetState_of_ok stub k hget, PutState_of_ok stub k _ hput]
  simp only [ChaincodeStub.record] at hvote ⊢
  rw [if_pos hvote]

/-- A vote on a key whose bytes do not deserialize to a record holding the
sentinel: the already-voted failure, and the stub is left as it was. -/
theorem doVoting_reject (stub : ChaincodeStub) (k v : String)
    (hvote : (stub.record k).Vote ≠ "SINVOTAR") :
    doVoting stub [k, v] = (shim.Error alreadyVoted, stub) := by
  rw [doVoting_pair]
  have h : ((json.Unmarshal (stub.GetState k).1 Asset_Votes.zero).1).Vote ≠ "SINVOTAR" := by
    unfold ChaincodeStub.GetState
    cases hf : stub.faults.GetState k with
    | none => exact hvote
    | some err =>
      show ((json.Unmarshal "" Asset_Votes.zero).1).Vote ≠ "SINVOTAR"
      rw [Unmarshal_nil]
      decide
  rw [if_neg h]

theorem PutState_stored_other (stub : ChaincodeStub) (k value other : String) (h : other ≠ k) :
    (stub.PutState k value).1.stored other = stub.stored other := by
  unfold ChaincodeStub.PutState
  cases stub.faults.PutState k with
  | none => exact stored_put_other stub.ledger stub.faults k value other h
  | some err => rfl

/-- What `doVoting` does to the stub: nothing, or one `PutState` on its first
argument, and the latter only when the bytes read there decode to the sentinel. -/
theorem doVoting_stub (stub : ChaincodeStub) (args : List String) :
    (doVoting stub args).2 = stub ∨
    (((json.Unmarshal (stub.GetState (args.getD 0 "")).1 Asset_Votes.zero).1).Vote = "SINVOTAR" ∧
      ∃ value, (doVoting stub args).2 = (stub.PutState (args.getD 0 "") value).1) := by
  unfold doVoting
  by_cases hlen : args.length ≠ 2
  · left
    rw [if_pos hlen]
  · rw [if_neg hlen]
    by_cases hv : ((json.Unmarshal (stub.GetState (args.getD 0 "")).1 Asset_Votes.zero).1).Vote =
        "SINVOTAR"
    · right
      refine ⟨hv, ?_⟩
      simp only [hv, if_true]
      exact ⟨_, rfl⟩
    · left
      simp only [hv, if_false]

/-- The record `doVoting` decodes from its read is the stored record, or the zero
record when the read fails; so a decoded sentinel means a stored sentinel. -/
theorem read_sentinel (stub : ChaincodeStub) (k : String)
    (h : ((json.Unmarshal (stub.GetState k).1 Asset_Votes.zero).1).Vote = "SINVOTAR") :
    (stub.record k).Vote = "SINVOTAR" := by
  unfold ChaincodeStub.GetState at h
  cases hf : stub.faults.GetState k with
  | none => rw [hf] at h; exact h
  | some err =>
    rw [hf] at h
    have h2 : ((json.Unmarshal "" Asset_Votes.zero).1).Vote = "SINVOTAR" := h
    rw [Unmarshal_nil] at h2
    exact absurd h2 (by decide)

/-- Frame of `doVoting`: a key other than the first argument keeps its bytes. -/
theorem doVoting_stored_other (stub : ChaincodeStub) (args : List String) (other : String)
    (h : other ≠ args.getD 0 "") :
    (doVoting stub args).2.stored other = stub.stored other := by
  rcases doVoting_stub stub args with h1 | ⟨_, value, h1⟩
  · rw [h1]
  · rw [h1, PutState_stored_other stub _ value other h]

/-- A key whose record does not hold the sentinel keeps its bytes under `doVoting`,
whatever the arguments. -/
theorem doVoting_stored_voted (stub : ChaincodeStub) (args : List String) (k : String)
    (hvote : (stub.record k).Vote ≠ "SINVOTAR") :
    (doVoting stub args).2.stored k = stub.stored k := by
  rcases doVoting_stub stub args with h1 | ⟨hs, value, h1⟩
  · rw [h1]
  · by_cases hk : k = args.getD 0 ""
    · subst hk
      exact absurd (read_sentinel stub _ hs) hvote
    · rw [h1, PutState_stored_other stub _ value k hk]

theorem queryVoter_stub (stub : ChaincodeStub) (args : List String) :
    (queryVoter stub args).2 = stub := by
  unfold queryVoter
  split_ifs <;> rfl

theorem queryAllVotes_stub (stub : ChaincodeStub) : (queryAllVotes stub).2 = stub := by
  unfold queryAllVotes
  simp only
  cases stub.GetStateByRange "VOTER0" "VOTER999" with
  | error err => rfl
  | ok it =>
    simp only
    cases queryAllVotesLoop it "[" false with
    | error err => rfl
    | ok buffer => rfl

/-- Frame of the `initLedger` loop: a key that is none of the keys still to be
written keeps its bytes. -/
theorem initLedgerLoop_stored_other (rest : List Asset_Votes) (i : Nat) (stub : ChaincodeStub)
    (k : String) (h : ∀ j, j < rest.length → k ≠ "VOTER" ++ strconv.Itoa (i + j)) :
    (initLedgerLoop i rest stub).stored k = stub.stored k := by
  induction rest generalizing i stub with
  | nil => rfl
  | cons voter rest ih =>
    simp only [initLedgerLoop]
    rw [ih (i + 1) _ (fun j hj => by
      have := h (j + 1) (by simp only [List.length_cons]; omega)
      rwa [show i + (j + 1) = i + 1 + j by omega] at this)]
    exact PutState_stored_other stub _ _ k (h 0 (by simp))

/-- C1 (as stated, refuted): on the seeded ledger `"VOTER0"` holds the sentinel;
a first vote whose value is the sentinel itself succeeds, and the second vote on
the same key then succeeds too instead of failing, and rewrites the stored
value. -/
theorem sentinel_revote_counterexample :
    (seededStub.record "VOTER0").Vote = "SINVOTAR" ∧
    (doVoting seededStub ["VOTER0", "SINVOTAR"]).1 = shim.Success "" ∧
    (doVoting (doVoting seededStub ["VOTER0", "SINVOTAR"]).2 ["VOTER0", "CANDIDATE_B"]).1 =
      shim.Success "" ∧
    ¬ ((doVoting (doVoting seededStub ["VOTER0", "SINVOTAR"]).2 ["VOTER0", "CANDIDATE_B"]).1 =
        shim.Error alreadyVoted ∧
      (doVoting (doVoting seededStub ["VOTER0", "SINVOTAR"]).2
          ["VOTER0", "CANDIDATE_B"]).2.stored "VOTER0" =
        (doVoting seededStub ["VOTER0", "SINVOTAR"]).2.stored "VOTER0") := by
  decide

/-- C1 (amended): when the record at `k` holds the sentinel, the read and the
write of `k` work, and the first vote `v1` is not the sentinel itself, then
`doVoting([k, v1])` succeeds with no payload and the record at `k` now has vote
`v1`, and a following `doVoting([k, v2])` returns the already-voted failure and
leaves the stub, hence the value at `k`, exactly as the first call wrote it. -/
theorem doVoting_twice (stub : ChaincodeStub) (k v1 v2 : String)
    (hget : stub.faults.GetState k = none) (hput : stub.faults.PutState k = none)
    (hvote : (stub.record k).Vote = "SINVOTAR") (hv1 : v1 ≠ "SINVOTAR") :
    (doVoting stub [k, v1]).1 = shim.Success "" ∧
    ((doVoting stub [k, v1]).2.record k) = { stub.record k with Vote := v1 } ∧
    (doVoting (doVoting stub [k, v1]).2 [k, v2]).1 = shim.Error alreadyVoted ∧
    (doVoting (doVoting stub [k, v1]).2 [k, v2]).2 = (doVoting stub [k, v1]).2 := by
  have hrec : ((doVoting stub [k, v1]).2.record k) = { stub.record k with Vote := v1 } := by
    rw [doVoting_accept stub k v1 hget hput hvote]
    simp only [ChaincodeStub.record, stored_put_same, json.Unmarshal_Marshal]
  have hrej := doVoting_reject (doVoting stub [k, v1]).2 k v2 (by rw [hrec]; exact hv1)
  refine ⟨?_, hrec, ?_, ?_⟩
  · rw [doVoting_accept stub k v1 hget hput hvote]
  · rw [hrej]
  · rw [hrej]

/-- The amended C1 at the seeded ledger, key `"VOTER0"`, votes `"CANDIDATE_A"` then
`"CANDIDATE_B"`. -/
theorem doVoting_twice_witness :
    seededStub.faults.GetState "VOTER0" = none ∧
    seededStub.faults.PutState "VOTER0" = none ∧
    (seededStub.record "VOTER0").Vote = "SINVOTAR" ∧
    "CANDIDATE_A" ≠ "SINVOTAR" ∧
    ((doVoting seededStub ["VOTER0", "CANDIDATE_A"]).1 = shim.Success "" ∧
    ((doVoting seededStub ["VOTER0", "CANDIDATE_A"]).2.record "VOTER0") =
      { seededStub.record "VOTER0" with Vote := "CANDIDATE_A" } ∧
    (doVoting (doVoting seededStub ["VOTER0", "CANDIDATE_A"]).2 ["VOTER0", "CANDIDATE_B"]).1 =
      shim.Error alreadyVoted ∧
    (doVoting (doVoting seededStub ["VOTER0", "CANDIDATE_A"]).2 ["VOTER0", "CANDIDATE_B"]).2 =
      (doVoting seededStub ["VOTER0", "CANDIDATE_A"]).2) :=
  ⟨rfl, rfl, by decide, by decide,
    doVoting_twice seededStub "VOTER0" "CANDIDATE_A" "CANDIDATE_B" rfl rfl (by decide) (by decide)⟩

/-! ## `Invoke` and the write-once invariant -/

/-- C2 (as stated, refuted): in the seeded ledger after `"VOTER0"` voted
`"CANDIDATE_A"`, the record at `"VOTER0"` does not hold the sentinel, yet invoking
`initLedger` changes its vote (back to the sentinel). -/
theorem Invoke_initLedger_counterexample :
    (votedStub.record "VOTER0").Vote ≠ "SINVOTAR" ∧
    ¬ (((Invoke votedStub "initLedger" []).2.record "VOTER0").Vote =
        (votedStub.record "VOTER0").Vote) ∧
    ((Invoke votedStub "initLedger" []).2.record "VOTER0").Vote = "SINVOTAR" := by
  decide

/-- C2 (amended): for every stub, key `k`, function name and argument list, if the
record at `k` has a vote other than the sentinel, then after `Invoke` the bytes at
`k`, and so the vote of the record at `k`, are the same as before, provided the
function is not `initLedger` or `k` is none of the ten keys `"VOTER" + Itoa(i)`,
`i < 10`, that `initLedger` writes. -/
theorem Invoke_write_once (stub : ChaincodeStub) (function : String) (args : List String)
    (k : String)
    (hseed : function = "initLedger" → ∀ i, i < 10 → k ≠ "VOTER" ++ strconv.Itoa i)
    (hvote : (stub.record k).Vote ≠ "SINVOTAR") :
    (Invoke stub function args).2.stored k = stub.stored k ∧
    ((Invoke stub function args).2.record k).Vote = (stub.record k).Vote := by
  have hs : (Invoke stub function args).2.stored k = stub.stored k := by
    unfold Invoke
    split_ifs with h1 h2 h3 h4
    · rw [queryVoter_stub]
    · show (initLedgerLoop 0 voters stub).stored k = stub.stored k
      apply initLedgerLoop_stored_other
      intro j hj
      rw [Nat.zero_add]
      exact hseed h2 j hj
    · rw [queryAllVotes_stub]
    · exact doVoting_stored_voted stub args k hvote
    · rfl
  exact ⟨hs, by simp only [ChaincodeStub.record, hs]⟩

/-- The amended C2 at the voted ledger: `doVoting` on `"VOTER0"` through `Invoke`
leaves the vote `"CANDIDATE_A"` in place. -/
theorem Invoke_write_once_witness :
    ("doVoting" = "initLedger" → ∀ i, i < 10 → "VOTER0" ≠ "VOTER" ++ strconv.Itoa i) ∧
    (votedStub.record "VOTER0").Vote ≠ "SINVOTAR" ∧
    ((Invoke votedStub "doVoting" ["VOTER0", "CANDIDATE_B"]).2.stored "VOTER0" =
        votedStub.stored "VOTER0" ∧
      ((Invoke votedStub "doVoting" ["VOTER0", "CANDIDATE_B"]).2.record "VOTER0").Vote =
        (votedStub.record "VOTER0").Vote) :=
  ⟨fun h => absurd h (by decide), by decide,
    Invoke_write_once votedStub "doVoting" ["VOTER0", "CANDIDATE_B"] "VOTER0"
      (fun h => absurd h (by decide)) (by decide)⟩

/-! ## A vote on an unvoted record, and the seeded scenario -/

theorem PutState_faults (stub : ChaincodeStub) (k value : String) :
    (stub.PutState k value).1.faults = stub.faults := by
  unfold ChaincodeStub.PutState
  cases stub.faults.PutState k <;> rfl

theorem initLedgerLoop_faults (rest : List Asset_Votes) (i : Nat) (stub : ChaincodeStub) :
    (initLedgerLoop i rest stub).faults = stub.faults := by
  induction rest generalizing i stub with
  | nil => rfl
  | cons voter rest ih =>
    simp only [initLedgerLoop]
    rw [ih, PutState_faults]

/-- After `initLedger`, on any ledger whose write of `"VOTER0"` works, `"VOTER0"`
holds the first seeded record, marshalled. -/
theorem initLedger_stored_VOTER0 (stub : ChaincodeStub)
    (hput : stub.faults.PutState "VOTER0" = none) :
    (initLedger stub).2.stored "VOTER0" =
      json.Marshal ⟨"PIN", "100", "SINVOTAR", "12345", "Homero Simpson"⟩ := by
  show (initLedgerLoop 0 voters stub).stored "VOTER0" = _
  unfold voters
  rw [initLedgerLoop, initLedgerLoop_stored_other]
  · have h0 : "VOTER" ++ strconv.Itoa 0 = "VOTER0" := by decide
    rw [h0, PutState_of_ok stub _ _ hput]
    exact stored_put_same _ _ _ _
  · intro j hj
    simp only [List.length_cons, List.length_nil] at hj
    interval_cases j <;> decide

/-- C3: if the record the bytes at `k` decode to holds the sentinel (and the read
and write of `k` work), `doVoting([k, v])` returns success with no payload and `k`
then holds the marshalled record with only the vote replaced by `v`, which decodes
to that record. In particular, after `initLedger` and
`doVoting(["VOTER0", "CANDIDATE_A"])`, `queryVoter(["VOTER0"])` returns the record
with vote `"CANDIDATE_A"`, owner id `"12345"` and owner description
`"Homero Simpson"`. -/
theorem doVoting_unvoted :
    (∀ (stub : ChaincodeStub) (k v : String) (r : Asset_Votes),
      stub.faults.GetState k = none → stub.faults.PutState k = none →
      stub.record k = r → r.Vote = "SINVOTAR" →
        (doVoting stub [k, v]).1 = shim.Success "" ∧
        (doVoting stub [k, v]).2.stored k =
          json.Marshal ⟨r.Security, r.Factor, v, r.OwnerId, r.OwnerDesc⟩ ∧
        (doVoting stub [k, v]).2.record k = ⟨r.Security, r.Factor, v, r.OwnerId, r.OwnerDesc⟩) ∧
    (∀ stub : ChaincodeStub,
      stub.faults.GetState "VOTER0" = none → stub.faults.PutState "VOTER0" = none →
        (doVoting (initLedger stub).2 ["VOTER0", "CANDIDATE_A"]).1 = shim.Success "" ∧
        (queryVoter (doVoting (initLedger stub).2 ["VOTER0", "CANDIDATE_A"]).2 ["VOTER0"]).1 =
          shim.Success (json.Marshal ⟨"PIN", "100", "CANDIDATE_A", "12345", "Homero Simpson"⟩) ∧
        json.Unmarshal
            (queryVoter (doVoting (initLedger stub).2 ["VOTER0", "CANDIDATE_A"]).2
              ["VOTER0"]).1.Payload Asset_Votes.zero =
          (⟨"PIN", "100", "CANDIDATE_A", "12345", "Homero Simpson"⟩, none)) := by
  have general : ∀ (stub : ChaincodeStub) (k v : String) (r : Asset_Votes),
      stub.faults.GetState k = none → stub.faults.PutState k = none →
      stub.record k = r → r.Vote = "SINVOTAR" →
        (doVoting stub [k, v]).1 = shim.Success "" ∧
        (doVoting stub [k, v]).2.stored k =
          json.Marshal ⟨r.Security, r.Factor, v, r.OwnerId, r.OwnerDesc⟩ ∧
        (doVoting stub [k, v]).2.record k = ⟨r.Security, r.Factor, v, r.OwnerId, r.OwnerDesc⟩ := by
    intro stub k v r hget hput hr hv
    subst hr
    rw [doVoting_accept stub k v hget hput hv]
    refine ⟨rfl, stored_put_same _ _ _ _, ?_⟩
    simp only [ChaincodeStub.record, stored_put_same, json.Unmarshal_Marshal]
  refine ⟨general, ?_⟩
  intro stub hget hput
  have hf : (initLedger stub).2.faults = stub.faults := initLedgerLoop_faults _ _ _
  have hrec : (initLedger stub).2.record "VOTER0" =
      ⟨"PIN", "100", "SINVOTAR", "12345", "Homero Simpson"⟩ := by
    simp only [ChaincodeStub.record, initLedger_stored_VOTER0 stub hput, json.Unmarshal_Marshal]
  obtain ⟨h1, h2, -⟩ := general (initLedger stub).2 "VOTER0" "CANDIDATE_A" _
    (by rw [hf]; exact hget) (by rw [hf]; exact hput) hrec rfl
  have hf2 : (doVoting (initLedger stub).2 ["VOTER0", "CANDIDATE_A"]).2.faults = stub.faults := by
    rw [doVoting_accept _ _ _ (by rw [hf]; exact hget) (by rw [hf]; exact hput)
      (by rw [hrec])]
    exact hf
  have hq : (queryVoter (doVoting (initLedger stub).2 ["VOTER0", "CANDIDATE_A"]).2 ["VOTER0"]).1 =
      shim.Success (json.Marshal ⟨"PIN", "100", "CANDIDATE_A", "12345", "Homero Simpson"⟩) := by
    have hg := GetState_of_ok (doVoting (initLedger stub).2 ["VOTER0", "CANDIDATE_A"]).2 "VOTER0"
      (by rw [hf2]; exact hget)
    simp only [queryVoter, List.length_singleton, ne_eq, not_true_eq_false, if_false,
      List.getD_cons_zero, hg, h2]
  refine ⟨h1, hq, ?_⟩
  rw [hq]
  exact json.Unmarshal_Marshal _ _

/-- C3 at the seeded ledger, key `"VOTER0"`, vote `"CANDIDATE_A"`. -/
theorem doVoting_unvoted_witness :
    seededStub.faults.GetState "VOTER0" = none ∧
    seededStub.faults.PutState "VOTER0" = none ∧
    seededStub.record "VOTER0" = ⟨"PIN", "100", "SINVOTAR", "12345", "Homero Simpson"⟩ ∧
    ((doVoting seededStub ["VOTER0", "CANDIDATE_A"]).1 = shim.Success "" ∧
      (doVoting seededStub ["VOTER0", "CANDIDATE_A"]).2.stored "VOTER0" =
        json.Marshal ⟨"PIN", "100", "CANDIDATE_A", "12345", "Homero Simpson"⟩ ∧
      (doVoting seededStub ["VOTER0", "CANDIDATE_A"]).2.record "VOTER0" =
        ⟨"PIN", "100", "CANDIDATE_A", "12345", "Homero Simpson"⟩) :=
  ⟨rfl, rfl, by decide,
    doVoting_unvoted.1 seededStub "VOTER0" "CANDIDATE_A"
      ⟨"PIN", "100", "SINVOTAR", "12345", "Homero Simpson"⟩ rfl rfl (by decide) rfl⟩

/-- C4: if the record the bytes at `k` decode to has a vote other than the
sentinel, `doVoting([k, v])` returns the already-voted failure and writes nothing:
the stub after the call is the stub before it. -/
theorem doVoting_voted (stub : ChaincodeStub) (k v : String)
    (hvote : (stub.record k).Vote ≠ "SINVOTAR") :
    (doVoting stub [k, v]).1 = shim.Error "Already voted before!, you can only vote once" ∧
    (doVoting stub [k, v]).2 = stub := by
  rw [doVoting_reject stub k v hvote]
  exact ⟨rfl, rfl⟩

/-- C4 at the voted ledger: a second vote on `"VOTER0"`. -/
theorem doVoting_voted_witness :
    (votedStub.record "VOTER0").Vote ≠ "SINVOTAR" ∧
    ((doVoting votedStub ["VOTER0", "CANDIDATE_B"]).1 =
        shim.Error "Already voted before!, you can only vote once" ∧
      (doVoting votedStub ["VOTER0", "CANDIDATE_B"]).2 = votedStub) :=
  ⟨by decide, doVoting_voted votedStub "VOTER0" "CANDIDATE_B" (by decide)⟩

/-! ## `initLedger` and the full scan of the seeded ledger -/

/-- C5: from the empty store `initLedger` succeeds and the store then holds exactly
the ten keys `"VOTER0"` to `"VOTER9"`, which are the keys `"VOTER" + Itoa(i)` for
`i` from 0 to 9, in ascending order; `queryAllVotes` returns the array of these ten
entries in that order, which reads back as ten elements with keys `VOTER0` to
`VOTER9` whose records have vote `"SINVOTAR"`. -/
theorem initLedger_queryAllVotes :
    (initLedger emptyStub).1 = shim.Success "" ∧
    seededStub.ledger.map Prod.fst =
      ["VOTER0", "VOTER1", "VOTER2", "VOTER3", "VOTER4", "VOTER5", "VOTER6", "VOTER7",
        "VOTER8", "VOTER9"] ∧
    seededStub.ledger.map Prod.fst = (List.range 10).map (fun i => "VOTER" ++ strconv.Itoa i) ∧
    seededStub.ledger.Sorted ∧
    (queryAllVotes seededStub).1 = shim.Success (renderArray seededStub.ledger) ∧
    (json.parse (queryAllVotes seededStub).1.Payload.data).bind json.scanKeysVotes =
      some [("VOTER0", "SINVOTAR"), ("VOTER1", "SINVOTAR"), ("VOTER2", "SINVOTAR"),
        ("VOTER3", "SINVOTAR"), ("VOTER4", "SINVOTAR"), ("VOTER5", "SINVOTAR"),
        ("VOTER6", "SINVOTAR"), ("VOTER7", "SINVOTAR"), ("VOTER8", "SINVOTAR"),
        ("VOTER9", "SINVOTAR")] ∧
    (∀ kv ∈ seededStub.ledger,
      ((json.Unmarshal kv.2 Asset_Votes.zero).1).Vote = "SINVOTAR" ∧
      (json.Unmarshal kv.2 Asset_Votes.zero).2 = none) := by
  refine ⟨rfl, by decide, by decide, ?_, by decide!, by decide!, by decide!⟩
  unfold Ledger.Sorted
  decide

/-! ## `queryVoter` -/

/-- C6: when the point read of `k` works, `queryVoter([k])` returns success with
exactly the bytes stored at `k` as payload (and leaves the stub alone); for a key
absent from the store that is success with an empty payload, status `OK`. -/
theorem queryVoter_stored (stub : ChaincodeStub) (k : String)
    (hget : stub.faults.GetState k = none) :
    queryVoter stub [k] = (shim.Success (stub.stored k), stub) ∧
    (ledgerLookup stub.ledger k = Option.none →
      (queryVoter stub [k]).1 = shim.Success "" ∧
      (queryVoter stub [k]).1.Status = shim.OK ∧ (queryVoter stub [k]).1.Payload = "") := by
  have h : queryVoter stub [k] = (shim.Success (stub.stored k), stub) := by
    simp only [queryVoter, List.length_singleton, ne_eq, not_true_eq_false, if_false,
      List.getD_cons_zero, GetState_of_ok stub k hget]
  refine ⟨h, fun habs => ?_⟩
  have hs : stub.stored k = "" := by simp [ChaincodeStub.stored, habs]
  rw [h, hs]
  exact ⟨rfl, rfl, rfl⟩

/-- C6 at the seeded ledger: the stored key `"VOTER1"`. -/
theorem queryVoter_stored_witness :
    seededStub.faults.GetState "VOTER1" = none ∧
    (queryVoter seededStub ["VOTER1"] = (shim.Success (seededStub.stored "VOTER1"), seededStub) ∧
    (ledgerLookup seededStub.ledger "VOTER1" = Option.none →
      (queryVoter seededStub ["VOTER1"]).1 = shim.Success "" ∧
      (queryVoter seededStub ["VOTER1"]).1.Status = shim.OK ∧
      (queryVoter seededStub ["VOTER1"]).1.Payload = "")) :=
  ⟨rfl, queryVoter_stored seededStub "VOTER1" rfl⟩

/-- The read error of `GetState` never reaches the response of `queryVoter`: a
failed read gives success with an empty payload. -/
theorem queryVoter_of_read_error (stub : ChaincodeStub) (k err : String)
    (h : stub.faults.GetState k = some err) :
    (queryVoter stub [k]).1 = shim.Success "" := by
  simp [queryVoter, ChaincodeStub.GetState, h]

/-- C7 (the code at the failing input): the point read of `"VOTER0"` fails with a
store error, and `queryVoter(["VOTER0"])` still returns success, status `OK`, with
an empty payload, not a failure. -/
theorem queryVoter_read_failure :
    (readFailureStub.GetState "VOTER0").2 = some "GET_STATE failed" ∧
    (queryVoter readFailureStub ["VOTER0"]).1 = shim.Success "" ∧
    (queryVoter readFailureStub ["VOTER0"]).1.Status = shim.OK ∧
    readFailureStub.stored "VOTER0" ≠ "" := by
  decide

/-! ## Write failures in `initLedger` -/

/-- The response of `initLedger` does not depend on the store at all. -/
theorem initLedger_response (stub : ChaincodeStub) : (initLedger stub).1 = shim.Success "" :=
  rfl

/-- C8 (the code at the failing input): the write of `"VOTER3"` fails with a store
error, `initLedger` still returns success with no payload, and afterwards the store
holds nine keys, `"VOTER3"` not among them. -/
theorem initLedger_write_failure :
    (writeFailureStub.PutState "VOTER3" "").2 = some "PUT_STATE failed" ∧
    (initLedger writeFailureStub).1 = shim.Success "" ∧
    (initLedger writeFailureStub).1.Status = shim.OK ∧
    (initLedger writeFailureStub).2.ledger.map Prod.fst =
      ["VOTER0", "VOTER1", "VOTER2", "VOTER4", "VOTER5", "VOTER6", "VOTER7", "VOTER8",
        "VOTER9"] := by
  decide

/-! ## Argument counts -/

/-- C9: `queryVoter` with other than one argument and `doVoting` with other than
two arguments return the argument-count failure and leave the stub, hence the
store, as it was. -/
theorem wrong_argument_count (stub : ChaincodeStub) (args : List String) :
    (args.length ≠ 1 →
      queryVoter stub args = (shim.Error "Incorrect number of arguments. Expecting 1", stub)) ∧
    (args.length ≠ 2 →
      doVoting stub args = (shim.Error "Incorrect number of arguments. Expecting 2", stub)) := by
  constructor
  · intro h
    simp only [queryVoter, h, ne_eq, not_false_eq_true, if_true]
  · intro h
    simp only [doVoting, h, ne_eq, not_false_eq_true, if_true]

/-- C9 at the seeded ledger: `queryVoter` with two arguments, `doVoting` with one. -/
theorem wrong_argument_count_witness :
    (["VOTER0", "VOTER1"].length ≠ 1 ∧
      queryVoter seededStub ["VOTER0", "VOTER1"] =
        (shim.Error "Incorrect number of arguments. Expecting 1", seededStub)) ∧
    (["VOTER0"].length ≠ 2 ∧
      doVoting seededStub ["VOTER0"] =
        (shim.Error "Incorrect number of arguments. Expecting 2", seededStub)) :=
  ⟨⟨by decide, (wrong_argument_count seededStub ["VOTER0", "VOTER1"]).1 (by decide)⟩,
    ⟨by decide, (wrong_argument_count seededStub ["VOTER0"]).2 (by decide)⟩⟩

/-! ## The output of `queryAllVotes` -/

/-- The text the loop appends for one entry is the rendered element. -/
theorem append_entry (buffer : String) (kv : String × String) :
    buffer ++ "\x7b\"Key\":" ++ "\"" ++ kv.1 ++ "\"" ++ ", \"Record\":" ++ kv.2 ++ "\x7d" =
      buffer ++ renderEntry kv := by
  have h1 : ("\x7b\"Key\":" : String) ++ "\"" = "\x7b\"Key\":\"" := by decide
  have h2 : ("\"" : String) ++ ", \"Record\":" = "\", \"Record\":" := by decide
  unfold renderEntry
  simp only [String.append_assoc]
  rw [← String.append_assoc "\"" ", \"Record\":", h2,
    ← String.append_assoc "\x7b\"Key\":" "\"", h1]

/-- The loop after the first element, when no `Next` fails: it extends the buffer
the way `String.intercalate` extends its accumulator. -/
theorem queryAllVotesLoop_rest (entries : List (String × String)) (buffer acc : String) :
    queryAllVotesLoop (entries.map Except.ok) (buffer ++ acc) true =
      Except.ok (buffer ++ String.intercalate.go acc "," (entries.map renderEntry)) := by
  induction entries generalizing acc with
  | nil => rfl
  | cons kv rest ih =>
    simp only [List.map_cons, queryAllVotesLoop, if_true, String.intercalate.go]
    rw [append_entry, String.append_assoc, String.append_assoc, ← String.append_assoc acc]
    exact ih _

/-- The loop from the start, when no `Next` fails: the opening bracket and the
elements, comma separated. -/
theorem queryAllVotesLoop_ok (entries : List (String × String)) :
    queryAllVotesLoop (entries.map Except.ok) "[" false =
      Except.ok ("[" ++ ",".intercalate (entries.map renderEntry)) := by
  cases entries with
  | nil => rfl
  | cons kv rest =>
    simp only [List.map_cons, queryAllVotesLoop, Bool.false_eq_true, if_false,
      String.intercalate]
    rw [append_entry]
    exact queryAllVotesLoop_rest rest "[" (renderEntry kv)

/-- The iterator of a scan none of whose `Next` calls fails delivers the entries
in range. -/
theorem GetStateByRange_of_ok (stub : ChaincodeStub) (startKey endKey : String)
    (hopen : stub.faults.GetStateByRange = none)
    (hnext : ∀ kv ∈ ledgerRange stub.ledger startKey endKey, stub.faults.Next kv.1 = none) :
    stub.GetStateByRange startKey endKey =
      Except.ok ((ledgerRange stub.ledger startKey endKey).map Except.ok) := by
  unfold ChaincodeStub.GetStateByRange
  rw [hopen]
  simp only
  congr 1
  apply List.map_congr_left
  intro kv hkv
  rw [hnext kv hkv]

theorem mem_ledgerRange (l : Ledger) (startKey endKey : String) (kv : String × String) :
    kv ∈ ledgerRange l startKey endKey ↔
      kv ∈ l ∧ keyLess kv.1 startKey = false ∧ keyLess kv.1 endKey = true := by
  simp [ledgerRange, List.mem_filter]

theorem ledgerRange_sublist (l : Ledger) (startKey endKey : String) :
    List.Sublist (ledgerRange l startKey endKey) l :=
  List.filter_sublist l

/-- C10: when the scan opens and none of its `Next` calls fails, `queryAllVotes`
returns as payload the bytes `[`, then one element per entry of the scan range in
the order of the store, separated by `,`, then `]`, the element of an entry being
the object of `renderEntry` that quotes the key and splices the value in as it
is. The entries of the range are the entries of the store with key from `"VOTER0"`
(inclusive) to `"VOTER999"` (exclusive), in ascending key order when the store is;
there are as many elements as entries in range, and an empty range gives `[]`. -/
theorem queryAllVotes_payload (stub : ChaincodeStub)
    (hopen : stub.faults.GetStateByRange = none)
    (hnext : ∀ kv ∈ ledgerRange stub.ledger "VOTER0" "VOTER999", stub.faults.Next kv.1 = none) :
    (queryAllVotes stub).1 =
      shim.Success ("[" ++
        ",".intercalate ((ledgerRange stub.ledger "VOTER0" "VOTER999").map renderEntry) ++ "]") ∧
    ((ledgerRange stub.ledger "VOTER0" "VOTER999").map renderEntry).length =
      ((ledgerRange stub.ledger "VOTER0" "VOTER999").map Prod.fst).length ∧
    (∀ kv, kv ∈ ledgerRange stub.ledger "VOTER0" "VOTER999" ↔
      kv ∈ stub.ledger ∧ keyLess kv.1 "VOTER0" = false ∧ keyLess kv.1 "VOTER999" = true) ∧
    List.Sublist (ledgerRange stub.ledger "VOTER0" "VOTER999") stub.ledger ∧
    (stub.ledger.Sorted → (ledgerRange stub.ledger "VOTER0" "VOTER999").Sorted) ∧
    (ledgerRange stub.ledger "VOTER0" "VOTER999" = [] →
      (queryAllVotes stub).1 = shim.Success "[]") := by
  have hpay : (queryAllVotes stub).1 =
      shim.Success ("[" ++
        ",".intercalate ((ledgerRange stub.ledger "VOTER0" "VOTER999").map renderEntry) ++ "]") := by
    unfold queryAllVotes
    simp only [GetStateByRange_of_ok stub "VOTER0" "VOTER999" hopen hnext, queryAllVotesLoop_ok]
  refine ⟨hpay, by simp only [List.length_map], mem_ledgerRange _ _ _,
    ledgerRange_sublist _ _ _, fun hs => List.Pairwise.sublist (ledgerRange_sublist _ _ _) hs, ?_⟩
  intro hempty
  rw [hpay, hempty]
  rfl

/-- C10 at the seeded ledger, whose ten entries are all in range. -/
theorem queryAllVotes_payload_witness :
    seededStub.faults.GetStateByRange = none ∧
    (∀ kv ∈ ledgerRange seededStub.ledger "VOTER0" "VOTER999",
      seededStub.faults.Next kv.1 = none) ∧
    (ledgerRange seededStub.ledger "VOTER0" "VOTER999").length = 10 ∧
    (queryAllVotes seededStub).1 =
      shim.Success ("[" ++
        ",".intercalate ((ledgerRange seededStub.ledger "VOTER0" "VOTER999").map renderEntry) ++
        "]") :=
  ⟨rfl, fun _ _ => rfl, by decide,
    (queryAllVotes_payload seededStub rfl (fun _ _ => rfl)).1⟩

/-! ## Every operation keeps the ledger in ascending key order -/

theorem PutState_sorted (stub : ChaincodeStub) (k value : String) (hs : stub.ledger.Sorted) :
    (stub.PutState k value).1.ledger.Sorted := by
  unfold ChaincodeStub.PutState
  cases stub.faults.PutState k with
  | none => exact ledgerPut_sorted _ _ _ hs
  | some err => exact hs

theorem initLedgerLoop_sorted (rest : List Asset_Votes) (i : Nat) (stub : ChaincodeStub)
    (hs : stub.ledger.Sorted) : (initLedgerLoop i rest stub).ledger.Sorted := by
  induction rest generalizing i stub with
  | nil => exact hs
  | cons voter rest ih =>
    simp only [initLedgerLoop]
    exact ih _ _ (PutState_sorted stub _ _ hs)

/-- The empty ledger is in ascending key order, and `Invoke` keeps a ledger so:
the order in which a scan delivers its entries is the key order in every state
reached from the empty ledger. -/
theorem Invoke_sorted (stub : ChaincodeStub) (function : String) (args : List String)
    (hs : stub.ledger.Sorted) : (Invoke stub function args).2.ledger.Sorted := by
  unfold Invoke
  split_ifs
  · rw [queryVoter_stub]; exact hs
  · exact initLedgerLoop_sorted _ _ _ hs
  · rw [queryAllVotes_stub]; exact hs
  · rcases doVoting_stub stub args with h | ⟨_, value, h⟩
    · rw [h]; exact hs
    · rw [h]; exact PutState_sorted stub _ _ hs
  · exact hs

/-! ## Serialize, then deserialize -/

/-- C11: for every record, whatever its five strings (empty ones included),
`json.Marshal` followed by `json.Unmarshal` reports no error and gives back the
record, equal to the original on all five fields, whatever the target held before;
the record of five empty strings marshals to the object with five empty string
members. -/
theorem Marshal_Unmarshal_roundtrip (v target : Asset_Votes) :
    (json.Unmarshal (json.Marshal v) target).2 = none ∧
    (json.Unmarshal (json.Marshal v) target).1 = v ∧
    ((json.Unmarshal (json.Marshal v) target).1.Security = v.Security ∧
      (json.Unmarshal (json.Marshal v) target).1.Factor = v.Factor ∧
      (json.Unmarshal (json.Marshal v) target).1.Vote = v.Vote ∧
      (json.Unmarshal (json.Marshal v) target).1.OwnerId = v.OwnerId ∧
      (json.Unmarshal (json.Marshal v) target).1.OwnerDesc = v.OwnerDesc) ∧
    json.Marshal ⟨"", "", "", "", ""⟩ =
      "\x7b\"security\":\"\",\"factor\":\"\",\"vote\":\"\",\"ownerid\":\"\",\"ownerdesc\":\"\"\x7d" := by
  rw [json.Unmarshal_Marshal]
  exact ⟨rfl, rfl, ⟨rfl, rfl, rfl, rfl, rfl⟩, by decide⟩

/-! ## Dispatch -/

/-- C13: a function name that is none of `queryVoter`, `initLedger`,
`queryAllVotes`, `doVoting` (such as `bogus`) makes `Invoke` return the
unknown-function failure and leave the stub as it was; each of the four names makes
`Invoke` return exactly what the method of that name returns. -/
theorem Invoke_dispatch (stub : ChaincodeStub) (function : String) (args : List String) :
    (function ≠ "queryVoter" → function ≠ "initLedger" → function ≠ "queryAllVotes" →
      function ≠ "doVoting" →
      Invoke stub function args = (shim.Error "Invalid Smart Contract function name.", stub)) ∧
    Invoke stub "bogus" args = (shim.Error "Invalid Smart Contract function name.", stub) ∧
    Invoke stub "queryVoter" args = queryVoter stub args ∧
    Invoke stub "initLedger" args = initLedger stub ∧
    Invoke stub "queryAllVotes" args = queryAllVotes stub ∧
    Invoke stub "doVoting" args = doVoting stub args := by
  refine ⟨?_, rfl, rfl, rfl, rfl, rfl⟩
  intro h1 h2 h3 h4
  unfold Invoke
  rw [if_neg h1, if_neg h2, if_neg h3, if_neg h4]

/-- C13 at the seeded ledger with the function name `bogus`. -/
theorem Invoke_dispatch_witness :
    "bogus" ≠ "queryVoter" ∧ "bogus" ≠ "initLedger" ∧ "bogus" ≠ "queryAllVotes" ∧
    "bogus" ≠ "doVoting" ∧
    Invoke seededStub "bogus" ["VOTER0"] =
      (shim.Error "Invalid Smart Contract function name.", seededStub) :=
  ⟨by decide, by decide, by decide, by decide,
    (Invoke_dispatch seededStub "bogus" ["VOTER0"]).1 (by decide) (by decide) (by decide)
      (by decide)⟩

/-! ## A vote on a key that is absent -/

/-- C16: for a key absent from the store the read gives the empty byte sequence,
which does not deserialize (a syntax error) and leaves the zero record, whose vote
is the empty string and not the sentinel; so `doVoting([k, v])` returns the
already-voted failure, writes nothing, and the key is still absent. -/
theorem doVoting_absent_key (stub : ChaincodeStub) (k v : String)
    (habs : ledgerLookup stub.ledger k = Option.none) :
    (stub.GetState k).1 = "" ∧
    json.Unmarshal (stub.GetState k).1 Asset_Votes.zero =
      (⟨"", "", "", "", ""⟩, some json.UnmarshalError.SyntaxError) ∧
    doVoting stub [k, v] =
      (shim.Error "Already voted before!, you can only vote once", stub) ∧
    ledgerLookup (doVoting stub [k, v]).2.ledger k = Option.none := by
  have hread : (stub.GetState k).1 = "" := by
    unfold ChaincodeStub.GetState
    cases stub.faults.GetState k with
    | none => simp [habs]
    | some err => rfl
  have hrec : (stub.record k).Vote ≠ "SINVOTAR" := by
    have hs : stub.stored k = "" := by simp [ChaincodeStub.stored, habs]
    simp only [ChaincodeStub.record, hs]
    decide
  have hres := doVoting_reject stub k v hrec
  refine ⟨hread, ?_, hres, ?_⟩
  · rw [hread]
    decide
  · rw [hres]
    exact habs

/-- C16 at the seeded ledger, which has no key `"VOTER10"`. -/
theorem doVoting_absent_key_witness :
    ledgerLookup seededStub.ledger "VOTER10" = Option.none ∧
    doVoting seededStub ["VOTER10", "CANDIDATE_A"] =
      (shim.Error "Already voted before!, you can only vote once", seededStub) ∧
    ledgerLookup (doVoting seededStub ["VOTER10", "CANDIDATE_A"]).2.ledger "VOTER10" =
      Option.none :=
  ⟨by decide, (doVoting_absent_key seededStub "VOTER10" "CANDIDATE_A" (by decide)).2.2⟩

/-! ## Frame conditions -/

theorem PutState_lookup_other (stub : ChaincodeStub) (k value other : String) (h : other ≠ k) :
    ledgerLookup (stub.PutState k value).1.ledger other = ledgerLookup stub.ledger other := by
  unfold ChaincodeStub.PutState
  cases stub.faults.PutState k with
  | none => exact ledgerLookup_put_other stub.ledger k value other h
  | some err => rfl

/-- C19: `doVoting` writes at most the key given as its first argument: every
other key has the same entry (present with the same bytes, or absent) after the
call as before, for every argument list and whether the call succeeds or fails. -/
theorem doVoting_frame (stub : ChaincodeStub) (args : List String) (other : String)
    (h : args.head? ≠ some other) :
    ledgerLookup (doVoting stub args).2.ledger other = ledgerLookup stub.ledger other ∧
    (doVoting stub args).2.stored other = stub.stored other := by
  have hl : ledgerLookup (doVoting stub args).2.ledger other = ledgerLookup stub.ledger other := by
    cases args with
    | nil => rfl
    | cons a rest =>
      have ha : other ≠ a := fun e => h (by rw [e]; rfl)
      rcases doVoting_stub stub (a :: rest) with h1 | ⟨_, value, h1⟩
      · rw [h1]
      · rw [h1]
        exact PutState_lookup_other stub a value other ha
  exact ⟨hl, by simp only [ChaincodeStub.stored, hl]⟩

/-- C19 at the seeded ledger: a vote on `"VOTER0"` leaves `"VOTER1"` alone. -/
theorem doVoting_frame_witness :
    ["VOTER0", "CANDIDATE_A"].head? ≠ some "VOTER1" ∧
    (ledgerLookup (doVoting seededStub ["VOTER0", "CANDIDATE_A"]).2.ledger "VOTER1" =
        ledgerLookup seededStub.ledger "VOTER1" ∧
      (doVoting seededStub ["VOTER0", "CANDIDATE_A"]).2.stored "VOTER1" =
        seededStub.stored "VOTER1") :=
  ⟨by decide, doVoting_frame seededStub ["VOTER0", "CANDIDATE_A"] "VOTER1" (by decide)⟩

/-- C20: `queryVoter` and `queryAllVotes` are read-only: for every stub and every
argument list the stub after the call, world state and all, is the stub before it,
whatever the response. -/
theorem queries_read_only (stub : ChaincodeStub) (args : List String) :
    (queryVoter stub args).2 = stub ∧ (queryAllVotes stub).2 = stub ∧
    (queryVoter stub args).2.ledger = stub.ledger ∧ (queryAllVotes stub).2.ledger = stub.ledger := by
  have h1 := queryVoter_stub stub args
  have h2 := queryAllVotes_stub stub
  exact ⟨h1, h2, by rw [h1], by rw [h2]⟩

/-! ## Failures of the scan -/

/-- The loop stops at the first `Next` that fails and returns its error, whatever
the buffer holds by then. -/
theorem queryAllVotesLoop_error (stub : ChaincodeStub) (pre post : List (String × String))
    (kv : String × String) (err buffer : String) (flag : Bool)
    (hpre : ∀ x ∈ pre, stub.faults.Next x.1 = none) (hkv : stub.faults.Next kv.1 = some err) :
    queryAllVotesLoop
        ((pre ++ kv :: post).map fun kv =>
          match stub.faults.Next kv.1 with
          | some err => Except.error err
          | Option.none => Except.ok kv) buffer flag =
      Except.error err := by
  induction pre generalizing buffer flag with
  | nil => simp only [List.nil_append, List.map_cons, hkv, queryAllVotesLoop]
  | cons x rest ih =>
    have hx : stub.faults.Next x.1 = none := hpre x (List.mem_cons_self _ _)
    simp only [List.cons_append, List.map_cons, hx, queryAllVotesLoop]
    exact ih _ _ (fun y hy => hpre y (List.mem_cons_of_mem _ hy))

/-- A list with an element whose `Next` fails splits at the first such element. -/
theorem first_failure (f : String → Option String) (l : List (String × String))
    (h : ∃ x ∈ l, f x.1 ≠ none) :
    ∃ pre kv post err, l = pre ++ kv :: post ∧ (∀ x ∈ pre, f x.1 = none) ∧ f kv.1 = some err := by
  induction l with
  | nil =>
    obtain ⟨x, hx, _⟩ := h
    exact absurd hx (List.not_mem_nil x)
  | cons a rest ih =>
    cases ha : f a.1 with
    | some err => exact ⟨[], a, rest, err, rfl, fun x hx => absurd hx (List.not_mem_nil x), ha⟩
    | none =>
      obtain ⟨x, hx, hne⟩ := h
      rcases List.mem_cons.mp hx with hxa | hxr
      · rw [hxa] at hne
        exact absurd ha hne
      · obtain ⟨pre, kv, post, err, hl, hpre, hkv⟩ := ih ⟨x, hxr, hne⟩
        refine ⟨a :: pre, kv, post, err, by rw [hl]; rfl, ?_, hkv⟩
        intro y hy
        rcases List.mem_cons.mp hy with hya | hyr
        · rw [hya]; exact ha
        · exact hpre y hyr

/-- The response when the iterator fails at an entry after delivering the ones
before it. -/
theorem queryAllVotes_of_next_error (stub : ChaincodeStub) (pre post : List (String × String))
    (kv : String × String) (err : String)
    (hopen : stub.faults.GetStateByRange = none)
    (hrange : ledgerRange stub.ledger "VOTER0" "VOTER999" = pre ++ kv :: post)
    (hpre : ∀ x ∈ pre, stub.faults.Next x.1 = none) (hkv : stub.faults.Next kv.1 = some err) :
    queryAllVotes stub = (shim.Error err, stub) := by
  unfold queryAllVotes ChaincodeStub.GetStateByRange
  simp only [hopen, hrange]
  rw [queryAllVotesLoop_error stub pre post kv err _ _ hpre hkv]

/-- C14: if the scan cannot be opened, `queryAllVotes` returns the failure carrying
the error of the scan; if the iterator fails at an entry of the range after
delivering the entries before it, `queryAllVotes` returns the failure carrying
that error; so whenever some `Next` of the range fails the response is a failure
carrying the error of a failing `Next`. In each case the payload is empty: nothing
of the buffer is returned. -/
theorem queryAllVotes_scan_failure (stub : ChaincodeStub) :
    (∀ err, stub.faults.GetStateByRange = some err →
      queryAllVotes stub = (shim.Error err, stub) ∧ (queryAllVotes stub).1.Payload = "") ∧
    (∀ pre kv post err, stub.faults.GetStateByRange = none →
      ledgerRange stub.ledger "VOTER0" "VOTER999" = pre ++ kv :: post →
      (∀ x ∈ pre, stub.faults.Next x.1 = none) → stub.faults.Next kv.1 = some err →
      queryAllVotes stub = (shim.Error err, stub) ∧ (queryAllVotes stub).1.Payload = "") ∧
    (stub.faults.GetStateByRange = none →
      (∃ x ∈ ledgerRange stub.ledger "VOTER0" "VOTER999", stub.faults.Next x.1 ≠ none) →
      ∃ kv err, kv ∈ ledgerRange stub.ledger "VOTER0" "VOTER999" ∧
        stub.faults.Next kv.1 = some err ∧
        queryAllVotes stub = (shim.Error err, stub) ∧ (queryAllVotes stub).1.Payload = "") := by
  refine ⟨?_, ?_, ?_⟩
  · intro err hopen
    have h : queryAllVotes stub = (shim.Error err, stub) := by
      unfold queryAllVotes ChaincodeStub.GetStateByRange
      simp only [hopen]
    exact ⟨h, by rw [h]; rfl⟩
  · intro pre kv post err hopen hrange hpre hkv
    have h := queryAllVotes_of_next_error stub pre post kv err hopen hrange hpre hkv
    exact ⟨h, by rw [h]; rfl⟩
  · intro hopen hfail
    obtain ⟨pre, kv, post, err, hrange, hpre, hkv⟩ := first_failure stub.faults.Next _ hfail
    have h := queryAllVotes_of_next_error stub pre post kv err hopen hrange hpre hkv
    exact ⟨kv, err, by rw [hrange]; simp, hkv, h, by rw [h]; rfl⟩

/-- C14 at the seeded ledger: a scan that cannot be opened, and an iterator that
fails at `"VOTER3"` after three entries were buffered. -/
theorem queryAllVotes_scan_failure_witness :
    scanFailureStub.faults.GetStateByRange = some "GET_STATE_BY_RANGE failed" ∧
    (queryAllVotes scanFailureStub = (shim.Error "GET_STATE_BY_RANGE failed", scanFailureStub) ∧
      (queryAllVotes scanFailureStub).1.Payload = "") ∧
    nextFailureStub.faults.GetStateByRange = none ∧
    (∃ x ∈ ledgerRange nextFailureStub.ledger "VOTER0" "VOTER999",
      nextFailureStub.faults.Next x.1 ≠ none) ∧
    (∃ kv err, kv ∈ ledgerRange nextFailureStub.ledger "VOTER0" "VOTER999" ∧
      nextFailureStub.faults.Next kv.1 = some err ∧
      queryAllVotes nextFailureStub = (shim.Error err, nextFailureStub) ∧
      (queryAllVotes nextFailureStub).1.Payload = "") :=
  ⟨rfl, (queryAllVotes_scan_failure scanFailureStub).1 _ rfl, rfl,
    ⟨("VOTER3", json.Marshal ⟨"PIN", "1000", "SINVOTAR", "098765", "Chaparron Bonaparte"⟩),
      by decide, by decide⟩,
    (queryAllVotes_scan_failure nextFailureStub).2.2 rfl
      ⟨("VOTER3", json.Marshal ⟨"PIN", "1000", "SINVOTAR", "098765", "Chaparron Bonaparte"⟩),
        by decide, by decide⟩⟩

/-! ## The bound of the scan -/

/-- C15 (as stated, refuted): index 999 is below 1000 and its key is `"VOTER999"`,
the end key itself, which is not strictly below the end key; a record stored under
it is not in the scanned range: `queryAllVotes` on a store holding just that
record returns the empty array, and on a store holding `"VOTER998"` and
`"VOTER999"` it returns the element of `"VOTER998"` alone. -/
theorem scan_range_counterexample :
    999 < 1000 ∧
    "VOTER" ++ strconv.Itoa 999 = "VOTER999" ∧
    ¬ (keyLess ("VOTER" ++ strconv.Itoa 999) "VOTER0" = false ∧
        keyLess ("VOTER" ++ strconv.Itoa 999) "VOTER999" = true) ∧
    ledgerRange lastKeyStub.ledger "VOTER0" "VOTER999" = [] ∧
    (queryAllVotes lastKeyStub).1 = shim.Success "[]" ∧
    (queryAllVotes lastKeysStub).1 =
      shim.Success ("[" ++
        renderEntry ("VOTER998",
          json.Marshal ⟨"PIN", "1", "SINVOTAR", "998", "Voter Before Last"⟩) ++ "]") := by
  decide

/-- C15 (amended): the scan `queryAllVotes` performs, from `"VOTER0"` (inclusive)
to `"VOTER999"` (exclusive), covers the 999 keys `"VOTER" + Itoa(i)` with `i < 999`.
Each is not below the start key and is strictly below the end key, so an entry
stored under it in any ledger is among the entries the scan delivers: when the scan
works, the payload `queryAllVotes` returns is the array of a run of store entries
that has the element of this entry in it; and on a store holding just this entry
`queryAllVotes` returns the array of exactly its element. -/
theorem scan_range_supports (i : Nat) (h : i < 999) :
    keyLess ("VOTER" ++ strconv.Itoa i) "VOTER0" = false ∧
    keyLess ("VOTER" ++ strconv.Itoa i) "VOTER999" = true ∧
    (∀ (l : Ledger) (value : String), ("VOTER" ++ strconv.Itoa i, value) ∈ l →
      ("VOTER" ++ strconv.Itoa i, value) ∈ ledgerRange l "VOTER0" "VOTER999") ∧
    (∀ (stub : ChaincodeStub) (value : String),
      stub.faults.GetStateByRange = none →
      (∀ kv ∈ ledgerRange stub.ledger "VOTER0" "VOTER999", stub.faults.Next kv.1 = none) →
      ("VOTER" ++ strconv.Itoa i, value) ∈ stub.ledger →
      ∃ before after : List (String × String),
        List.Sublist (before ++ ("VOTER" ++ strconv.Itoa i, value) :: after) stub.ledger ∧
        (queryAllVotes stub).1 =
          shim.Success ("[" ++
            ",".intercalate
              (before.map renderEntry ++
                renderEntry ("VOTER" ++ strconv.Itoa i, value) :: after.map renderEntry) ++
            "]")) ∧
    (∀ value : String,
      (queryAllVotes ⟨[("VOTER" ++ strconv.Itoa i, value)], Faults.none⟩).1 =
        shim.Success ("[" ++ renderEntry ("VOTER" ++ strconv.Itoa i, value) ++ "]")) := by
  have hall : ∀ j, j < 999 →
      keyLess ("VOTER" ++ strconv.Itoa j) "VOTER0" = false ∧
      keyLess ("VOTER" ++ strconv.Itoa j) "VOTER999" = true := by
    decide!
  obtain ⟨h1, h2⟩ := hall i h
  have hpay : ∀ stub : ChaincodeStub, stub.faults.GetStateByRange = none →
      (∀ kv ∈ ledgerRange stub.ledger "VOTER0" "VOTER999", stub.faults.Next kv.1 = none) →
      (queryAllVotes stub).1 =
        shim.Success ("[" ++
          ",".intercalate ((ledgerRange stub.ledger "VOTER0" "VOTER999").map renderEntry) ++
          "]") := by
    intro stub hopen hnext
    unfold queryAllVotes
    simp only [GetStateByRange_of_ok stub "VOTER0" "VOTER999" hopen hnext, queryAllVotesLoop_ok]
  have hin : ∀ (l : Ledger) (value : String), ("VOTER" ++ strconv.Itoa i, value) ∈ l →
      ("VOTER" ++ strconv.Itoa i, value) ∈ ledgerRange l "VOTER0" "VOTER999" :=
    fun l value hmem => (mem_ledgerRange l "VOTER0" "VOTER999" _).mpr ⟨hmem, h1, h2⟩
  refine ⟨h1, h2, hin, ?_, ?_⟩
  · intro stub value hopen hnext hmem
    obtain ⟨before, after, hsplit⟩ := List.append_of_mem (hin stub.ledger value hmem)
    refine ⟨before, after, ?_, ?_⟩
    · rw [← hsplit]
      exact ledgerRange_sublist _ _ _
    · rw [hpay stub hopen hnext, hsplit, List.map_append, List.map_cons]
  · intro value
    have hrange : ledgerRange [("VOTER" ++ strconv.Itoa i, value)] "VOTER0" "VOTER999" =
        [("VOTER" ++ strconv.Itoa i, value)] := by
      simp [ledgerRange, h1, h2]
    have hopen : (ChaincodeStub.mk [("VOTER" ++ strconv.Itoa i, value)]
        Faults.none).faults.GetStateByRange = none := rfl
    rw [hpay _ hopen (fun _ _ => rfl)]
    show shim.Success ("[" ++ ",".intercalate
      ((ledgerRange [("VOTER" ++ strconv.Itoa i, value)] "VOTER0" "VOTER999").map renderEntry) ++
        "]") = _
    rw [hrange]
    rfl

/-- The amended C15 at the last covered index, 998: on the store that holds
`"VOTER998"` and `"VOTER999"` the scan works and `queryAllVotes` returns an array
with the element of `"VOTER998"` in it, and on the store that holds `"VOTER998"`
alone it returns the array of that one element. -/
theorem scan_range_supports_witness :
    998 < 999 ∧
    lastKeysStub.faults.GetStateByRange = none ∧
    (∀ kv ∈ ledgerRange lastKeysStub.ledger "VOTER0" "VOTER999",
      lastKeysStub.faults.Next kv.1 = none) ∧
    ("VOTER" ++ strconv.Itoa 998,
      json.Marshal ⟨"PIN", "1", "SINVOTAR", "998", "Voter Before Last"⟩) ∈ lastKeysStub.ledger ∧
    (∃ before after : List (String × String),
      List.Sublist
        (before ++ ("VOTER" ++ strconv.Itoa 998,
          json.Marshal ⟨"PIN", "1", "SINVOTAR", "998", "Voter Before Last"⟩) :: after)
        lastKeysStub.ledger ∧
      (queryAllVotes lastKeysStub).1 =
        shim.Success ("[" ++
          ",".intercalate
            (before.map renderEntry ++
              renderEntry ("VOTER" ++ strconv.Itoa 998,
                json.Marshal ⟨"PIN", "1", "SINVOTAR", "998", "Voter Before Last"⟩) ::
                after.map renderEntry) ++
          "]")) ∧
    (queryAllVotes ⟨[("VOTER" ++ strconv.Itoa 998, "x")], Faults.none⟩).1 =
      shim.Success ("[" ++ renderEntry ("VOTER" ++ strconv.Itoa 998, "x") ++ "]") :=
  ⟨by decide, rfl, fun _ _ => rfl, by decide,
    (scan_range_supports 998 (by decide)).2.2.2.1 lastKeysStub _ rfl (fun _ _ => rfl)
      (by decide),
    (scan_range_supports 998 (by decide)).2.2.2.2 "x"⟩

/-! ## Malformed stored bytes -/

/-- Bytes that are not JSON decode to the zero record, so a vote on them is
answered with the already-voted failure and nothing is written. -/
theorem doVoting_of_syntax_error (stub : ChaincodeStub) (k v : String)
    (h : json.parse (stub.stored k).data = none) :
    doVoting stub [k, v] = (shim.Error alreadyVoted, stub) := by
  apply doVoting_reject
  simp only [ChaincodeStub.record, json.Unmarshal, h]
  decide

/-- C17 (the code at the failing inputs): the bytes `not a record` at `"VOTER0"`
fail to deserialize (a syntax error), and `doVoting` answers with the
already-voted failure itself; the object with a numeric `factor` at `"VOTER0"`
fails to deserialize (a type error), and `doVoting` answers with success and
rewrites the record. No response is a failure of its own kind. -/
theorem doVoting_malformed_record :
    (json.Unmarshal (malformedStub.stored "VOTER0") Asset_Votes.zero).2 =
      some json.UnmarshalError.SyntaxError ∧
    doVoting malformedStub ["VOTER0", "CANDIDATE_A"] =
      (shim.Error "Already voted before!, you can only vote once", malformedStub) ∧
    (json.Unmarshal (mistypedStub.stored "VOTER0") Asset_Votes.zero).2 =
      some json.UnmarshalError.UnmarshalTypeError ∧
    (doVoting mistypedStub ["VOTER0", "CANDIDATE_A"]).1 = shim.Success "" ∧
    (doVoting mistypedStub ["VOTER0", "CANDIDATE_A"]).2.stored "VOTER0" =
      json.Marshal ⟨"", "", "CANDIDATE_A", "", ""⟩ := by
  refine ⟨by decide, ?_, by decide, by decide, by decide⟩
  exact doVoting_of_syntax_error malformedStub "VOTER0" "CANDIDATE_A" rfl

/-! ## Sequences of invocations -/

/-- An invocation other than `initLedger` leaves the bytes of a key alone when the
record at that key does not hold the sentinel. -/
theorem Invoke_stored_voted (stub : ChaincodeStub) (function : String) (args : List String)
    (k : String) (hf : function ≠ "initLedger") (hvote : (stub.record k).Vote ≠ "SINVOTAR") :
    (Invoke stub function args).2.stored k = stub.stored k := by
  unfold Invoke
  rw [if_neg hf]
  split_ifs
  · rw [queryVoter_stub]
  · rw [queryAllVotes_stub]
  · exact doVoting_stored_voted stub args k hvote
  · rfl

theorem runInvocations_append (stub : ChaincodeStub) (pre post : List (String × List String)) :
    runInvocations stub (pre ++ post) = runInvocations (runInvocations stub pre) post := by
  induction pre generalizing stub with
  | nil => rfl
  | cons call rest ih => exact ih _

theorem runInvocations_stored_voted (calls : List (String × List String)) (stub : ChaincodeStub)
    (k : String) (hcalls : ∀ c ∈ calls, c.1 ≠ "initLedger")
    (hvote : (stub.record k).Vote ≠ "SINVOTAR") :
    (runInvocations stub calls).stored k = stub.stored k := by
  induction calls generalizing stub with
  | nil => rfl
  | cons call rest ih =>
    have hstep := Invoke_stored_voted stub call.1 call.2 k
      (hcalls call (List.mem_cons_self _ _)) hvote
    have hvote2 : ((Invoke stub call.1 call.2).2.record k).Vote ≠ "SINVOTAR" := by
      simp only [ChaincodeStub.record, hstep]
      exact hvote
    show (runInvocations (Invoke stub call.1 call.2).2 rest).stored k = stub.stored k
    rw [ih _ (fun c hc => hcalls c (List.mem_cons_of_mem _ hc)) hvote2, hstep]

/-- C18: run any sequence of invocations; once the record at `k` has a vote other
than the sentinel, every later sequence of invocations that are not `initLedger`
(`queryVoter`, `queryAllVotes`, `doVoting`, with any arguments) leaves the bytes
at `k` exactly as they were at that point. -/
theorem write_once_sequence (stub : ChaincodeStub) (earlier later : List (String × List String))
    (k : String) (hlater : ∀ c ∈ later, c.1 ≠ "initLedger")
    (hvote : ((runInvocations stub earlier).record k).Vote ≠ "SINVOTAR") :
    (runInvocations stub (earlier ++ later)).stored k = (runInvocations stub earlier).stored k := by
  rw [runInvocations_append]
  exact runInvocations_stored_voted later _ k hlater hvote

/-- C18 at the seeded ledger: after `"VOTER0"` voted, three more invocations, a
second vote on `"VOTER0"` among them, leave its bytes alone. -/
theorem write_once_sequence_witness :
    (∀ c ∈ [("doVoting", ["VOTER0", "CANDIDATE_B"]), ("queryAllVotes", []),
        ("queryVoter", ["VOTER0"])], c.1 ≠ "initLedger") ∧
    ((runInvocations seededStub [("doVoting", ["VOTER0", "CANDIDATE_A"])]).record "VOTER0").Vote ≠
      "SINVOTAR" ∧
    (runInvocations seededStub
        ([("doVoting", ["VOTER0", "CANDIDATE_A"])] ++
          [("doVoting", ["VOTER0", "CANDIDATE_B"]), ("queryAllVotes", []),
            ("queryVoter", ["VOTER0"])])).stored "VOTER0" =
      (runInvocations seededStub [("doVoting", ["VOTER0", "CANDIDATE_A"])]).stored "VOTER0" :=
  ⟨by decide, by decide,
    write_once_sequence seededStub [("doVoting", ["VOTER0", "CANDIDATE_A"])]
      [("doVoting", ["VOTER0", "CANDIDATE_B"]), ("queryAllVotes", []),
        ("queryVoter", ["VOTER0"])] "VOTER0" (by decide) (by decide)⟩

/-! ## `initLedger` rewrites the seeded keys, and is idempotent -/

theorem lexLess_irrefl (a : List Char) : lexLess a a = false := by
  induction a with
  | nil => rfl
  | cons x xs ih => rw [lexLess_cons, if_neg (Nat.lt_irrefl _), if_pos rfl, ih]

theorem keyLess_irrefl (a : String) : keyLess a a = false :=
  lexLess_irrefl _

theorem keyLess_ne (a b : String) (h : keyLess a b = true) : a ≠ b := by
  rintro rfl
  rw [keyLess_irrefl] at h
  exact absurd h (by decide)

theorem keyLess_asymm (a b : String) (h : keyLess a b = true) : keyLess b a = false := by
  cases hba : keyLess b a with
  | false => rfl
  | true =>
    have := keyLess_trans a b a h hba
    rw [keyLess_irrefl] at this
    exact absurd this (by decide)

/-- Writing the same entry a second time changes nothing. -/
theorem ledgerPut_idem (l : Ledger) (key value : String) :
    ledgerPut (ledgerPut l key value) key value = ledgerPut l key value := by
  induction l with
  | nil => simp [ledgerPut, keyLess_irrefl]
  | cons kv rest ih =>
    obtain ⟨k, v⟩ := kv
    by_cases h1 : keyLess key k = true
    · simp [ledgerPut, h1, keyLess_irrefl]
    · by_cases h2 : key = k
      · subst h2
        simp [ledgerPut, keyLess_irrefl]
      · simp [ledgerPut, h1, h2, ih]

/-- An entry that a write would not change is still one a write would not change
after an entry with a larger key has been written. -/
theorem ledgerPut_fixed_of_later (l : Ledger) (key value key2 value2 : String)
    (hfix : ledgerPut l key value = l) (hlt : keyLess key key2 = true) :
    ledgerPut (ledgerPut l key2 value2) key value = ledgerPut l key2 value2 := by
  induction l with
  | nil => simp [ledgerPut] at hfix
  | cons kv rest ih =>
    obtain ⟨k, v⟩ := kv
    by_cases h1 : keyLess key k = true
    · simp only [ledgerPut, h1, if_true] at hfix
      have := congrArg List.length hfix
      simp at this
    · by_cases h2 : key = k
      · subst h2
        simp only [ledgerPut, h1, if_true, Bool.false_eq_true, if_false] at hfix
        have h3 : keyLess key2 key = false := keyLess_asymm _ _ hlt
        have h4 : key2 ≠ key := fun e => keyLess_ne _ _ hlt e.symm
        have hv : value = v := by
          have := (List.cons.inj hfix).1
          exact (Prod.mk.inj this).2
        simp [ledgerPut, h3, h4, keyLess_irrefl, hv]
      · simp only [ledgerPut, h1, h2, if_false, Bool.false_eq_true] at hfix
        have hrest : ledgerPut rest key value = rest := by
          have := List.cons.inj hfix
          exact this.2
        have hk : keyLess k key = true := keyLess_connex key k (by simpa using h1) h2
        have hk2 : keyLess k key2 = true := keyLess_trans _ _ _ hk hlt
        have h3 : keyLess key2 k = false := keyLess_asymm _ _ hk2
        have h4 : key2 ≠ k := fun e => keyLess_ne _ _ hk2 e.symm
        simp [ledgerPut, h1, h2, h3, h4, ih hrest]

theorem PutState_idem (stub : ChaincodeStub) (k value : String) :
    ((stub.PutState k value).1.PutState k value).1 = (stub.PutState k value).1 := by
  cases hf : stub.faults.PutState k with
  | some err =>
    have h1 : (stub.PutState k value).1 = stub := by simp [ChaincodeStub.PutState, hf]
    rw [h1, h1]
  | none =>
    rw [PutState_of_ok stub k value hf]
    show ((ChaincodeStub.mk (ledgerPut stub.ledger k value) stub.faults).PutState k value).1 =
      ChaincodeStub.mk (ledgerPut stub.ledger k value) stub.faults
    rw [PutState_of_ok (ChaincodeStub.mk (ledgerPut stub.ledger k value) stub.faults) k value hf]
    show ChaincodeStub.mk (ledgerPut (ledgerPut stub.ledger k value) k value) stub.faults = _
    rw [ledgerPut_idem]

theorem PutState_fixed_of_later (stub : ChaincodeStub) (k value k2 value2 : String)
    (hfix : (stub.PutState k value).1 = stub) (hlt : keyLess k k2 = true) :
    ((stub.PutState k2 value2).1.PutState k value).1 = (stub.PutState k2 value2).1 := by
  cases hf2 : stub.faults.PutState k2 with
  | some err =>
    have h1 : (stub.PutState k2 value2).1 = stub := by simp [ChaincodeStub.PutState, hf2]
    rw [h1, hfix]
  | none =>
    rw [PutState_of_ok stub k2 value2 hf2]
    cases hf : stub.faults.PutState k with
    | some err => simp [ChaincodeStub.PutState, hf]
    | none =>
      rw [PutState_of_ok stub k value hf] at hfix
      have hl : ledgerPut stub.ledger k value = stub.ledger := congrArg ChaincodeStub.ledger hfix
      show ((ChaincodeStub.mk (ledgerPut stub.ledger k2 value2) stub.faults).PutState k value).1 =
        ChaincodeStub.mk (ledgerPut stub.ledger k2 value2) stub.faults
      rw [PutState_of_ok (ChaincodeStub.mk (ledgerPut stub.ledger k2 value2) stub.faults) k value hf]
      show ChaincodeStub.mk (ledgerPut (ledgerPut stub.ledger k2 value2) k value) stub.faults = _
      rw [ledgerPut_fixed_of_later stub.ledger k value k2 value2 hl hlt]

/-- An entry that a write would not change stays so through the rest of the loop
of `initLedger`, when the keys still to be written are all larger. -/
theorem initLedgerLoop_fixed (rest : List Asset_Votes) (i : Nat) (stub : ChaincodeStub)
    (k value : String)
    (hk : ∀ j, j < rest.length → keyLess k ("VOTER" ++ strconv.Itoa (i + j)) = true)
    (hfix : (stub.PutState k value).1 = stub) :
    ((initLedgerLoop i rest stub).PutState k value).1 = initLedgerLoop i rest stub := by
  induction rest generalizing i stub with
  | nil => exact hfix
  | cons voter rest ih =>
    simp only [initLedgerLoop]
    apply ih
    · intro j hj
      have := hk (j + 1) (by simp only [List.length_cons]; omega)
      rwa [show i + (j + 1) = i + 1 + j by omega] at this
    · exact PutState_fixed_of_later stub k value _ _ hfix (hk 0 (by simp))

/-- Running the loop of `initLedger` a second time over the same records, from the
same index, changes nothing, when the keys it writes are in ascending order. -/
theorem initLedgerLoop_idem (rest : List Asset_Votes) (i : Nat) (stub : ChaincodeStub)
    (hasc : ∀ a b, a < b → b < rest.length →
      keyLess ("VOTER" ++ strconv.Itoa (i + a)) ("VOTER" ++ strconv.Itoa (i + b)) = true) :
    initLedgerLoop i rest (initLedgerLoop i rest stub) = initLedgerLoop i rest stub := by
  induction rest generalizing i stub with
  | nil => rfl
  | cons voter rest ih =>
    simp only [initLedgerLoop]
    have hshift : ∀ a b, a < b → b < rest.length →
        keyLess ("VOTER" ++ strconv.Itoa (i + 1 + a)) ("VOTER" ++ strconv.Itoa (i + 1 + b)) =
          true := by
      intro a b hab hb
      have := hasc (a + 1) (b + 1) (by omega) (by simp only [List.length_cons]; omega)
      rwa [show i + (a + 1) = i + 1 + a by omega, show i + (b + 1) = i + 1 + b by omega] at this
    rw [initLedgerLoop_fixed rest (i + 1) _ ("VOTER" ++ strconv.Itoa i) (json.Marshal voter) ?_
      (PutState_idem stub _ _)]
    · exact ih (i + 1) _ hshift
    · intro j hj
      have := hasc 0 (j + 1) (by omega) (by simp only [List.length_cons]; omega)
      rwa [Nat.add_zero, show i + (j + 1) = i + 1 + j by omega] at this

/-- What a key written by the loop of `initLedger` holds afterwards: the record at
its index, marshalled, when its write works and no other index has the same key. -/
theorem initLedgerLoop_stored (rest : List Asset_Votes) (i : Nat) (stub : ChaincodeStub)
    (j : Nat) (voter : Asset_Votes) (hj : rest[j]? = some voter)
    (hdist : ∀ a, a < rest.length → a ≠ j →
      "VOTER" ++ strconv.Itoa (i + j) ≠ "VOTER" ++ strconv.Itoa (i + a))
    (hput : stub.faults.PutState ("VOTER" ++ strconv.Itoa (i + j)) = none) :
    (initLedgerLoop i rest stub).stored ("VOTER" ++ strconv.Itoa (i + j)) = json.Marshal voter := by
  induction rest generalizing i stub j with
  | nil => simp at hj
  | cons first rest ih =>
    simp only [initLedgerLoop]
    cases j with
    | zero =>
      simp only [List.getElem?_cons_zero, Option.some.injEq] at hj
      subst hj
      rw [initLedgerLoop_stored_other]
      · rw [Nat.add_zero] at hput ⊢
        rw [PutState_of_ok stub _ _ hput]
        exact stored_put_same _ _ _ _
      · intro a ha
        have := hdist (a + 1) (by simp only [List.length_cons]; omega) (by omega)
        rwa [show i + (a + 1) = i + 1 + a by omega] at this
    | succ j =>
      simp only [List.getElem?_cons_succ] at hj
      have := ih (i + 1) (stub.PutState ("VOTER" ++ strconv.Itoa i) (json.Marshal first)).1 j hj
        (by
          intro a ha hne
          have := hdist (a + 1) (by simp only [List.length_cons]; omega) (by omega)
          rwa [show i + (a + 1) = i + 1 + a by omega,
            show i + (j + 1) = i + 1 + j by omega] at this)
        (by
          rw [PutState_faults]
          rwa [show i + (j + 1) = i + 1 + j by omega] at hput)
      rwa [show i + 1 + j = i + (j + 1) by omega] at this

/-- C12: `initLedger` on any store leaves each of the ten keys `"VOTER" + Itoa(i)`
whose write works holding the marshalled record `voters[i]`, vote `"SINVOTAR"`,
whatever the key held before; and running `initLedger` on the result of
`initLedger` gives the same response and the same stub as running it once. -/
theorem initLedger_reseeds (stub : ChaincodeStub) :
    voters.length = 10 ∧
    (∀ (i : Nat) (voter : Asset_Votes), voters[i]? = some voter →
      stub.faults.PutState ("VOTER" ++ strconv.Itoa i) = none →
        (initLedger stub).2.stored ("VOTER" ++ strconv.Itoa i) = json.Marshal voter ∧
        (initLedger stub).2.record ("VOTER" ++ strconv.Itoa i) = voter ∧
        ((initLedger stub).2.record ("VOTER" ++ strconv.Itoa i)).Vote = "SINVOTAR") ∧
    initLedger (initLedger stub).2 = initLedger stub := by
  refine ⟨rfl, ?_, ?_⟩
  · intro i voter hi hput
    have hlt : i < 10 := by
      obtain ⟨h, _⟩ := List.getElem?_eq_some.mp hi
      exact h
    have hdist : ∀ j, j < 10 → ∀ a, a < 10 → a ≠ j →
        "VOTER" ++ strconv.Itoa (0 + j) ≠ "VOTER" ++ strconv.Itoa (0 + a) := by
      decide
    have hstored : (initLedger stub).2.stored ("VOTER" ++ strconv.Itoa i) = json.Marshal voter := by
      have := initLedgerLoop_stored voters 0 stub i voter hi (hdist i hlt)
        (by rw [Nat.zero_add]; exact hput)
      rwa [Nat.zero_add] at this
    have hrec : (initLedger stub).2.record ("VOTER" ++ strconv.Itoa i) = voter := by
      simp only [ChaincodeStub.record, hstored, json.Unmarshal_Marshal]
    have hall : ∀ v ∈ voters, v.Vote = "SINVOTAR" := by decide
    refine ⟨hstored, hrec, ?_⟩
    rw [hrec]
    exact hall voter (List.getElem?_mem hi)
  · have hasc : ∀ b, b < 10 → ∀ a, a < b →
        keyLess ("VOTER" ++ strconv.Itoa (0 + a)) ("VOTER" ++ strconv.Itoa (0 + b)) = true := by
      decide
    show (shim.Success "", initLedgerLoop 0 voters (initLedgerLoop 0 voters stub)) =
      (shim.Success "", initLedgerLoop 0 voters stub)
    rw [initLedgerLoop_idem voters 0 stub (fun a b hab hb => hasc b hb a hab)]

/-- C12 at the voted ledger: `"VOTER0"`, which held the vote `"CANDIDATE_A"`, holds
the first seeded record again after `initLedger`. -/
theorem initLedger_reseeds_witness :
    (votedStub.record "VOTER0").Vote = "CANDIDATE_A" ∧
    voters[0]? = some ⟨"PIN", "100", "SINVOTAR", "12345", "Homero Simpson"⟩ ∧
    votedStub.faults.PutState ("VOTER" ++ strconv.Itoa 0) = none ∧
    ((initLedger votedStub).2.stored ("VOTER" ++ strconv.Itoa 0) =
        json.Marshal ⟨"PIN", "100", "SINVOTAR", "12345", "Homero Simpson"⟩ ∧
      (initLedger votedStub).2.record ("VOTER" ++ strconv.Itoa 0) =
        ⟨"PIN", "100", "SINVOTAR", "12345", "Homero Simpson"⟩ ∧
      ((initLedger votedStub).2.record ("VOTER" ++ strconv.Itoa 0)).Vote = "SINVOTAR") :=
  ⟨by decide, rfl, rfl, (initLedger_reseeds votedStub).2.1 0 _ rfl rfl⟩

end Voting
